import Mathlib

/-!
# Verification of the kraken-tui native core against its specification

This file gives a shallow embedding, in Lean 4, of the parts of the
`kraken-tui` native core (Rust, `src/native/src/`) that the frozen claims
C1–C10 are about, together with theorems settling each claim.

Embedding conventions, applied uniformly:

* Rust `u32` handles and ids are `Nat`.
* Rust `i32` quantities (scroll offsets, layout readbacks) are `Int`.
* Machine floats (`f32`) are embedded as exact rationals `ℚ`.  The code
  stores animation values as raw `u32` bit patterns and reinterprets them
  per property (`f32::from_bits` / color words); since `f32 ↔ bits` is a
  bijection on the values that occur, the embedding carries the denoted
  value directly: a "bits" field is a `ℚ` which is the `f32` value for
  float-typed properties and the integer color word for color properties.
* `std::collections::HashMap` is embedded as an association list
  `List (Nat × α)` with `lookup` returning the first binding; all facts
  proved below are independent of iteration order.
* The Taffy flex solver is an external collaborator (spec §1: out of
  scope).  Each tree node owns exactly one solver node (spec invariant I2),
  so the solver's per-node layout store `ctx.tree.layout(node.taffy_node)`
  is embedded as a map from the node handle to an optional layout
  rectangle, and the solver bookkeeping calls (`new_leaf`, `set_children`,
  `remove`, `set_style`) are identity on the embedded state.
* The `unicode-segmentation` collaborator (spec §1: out of scope) is
  embedded with content as `List Char`, one grapheme per `Char`; none of
  the claims below depends on multi-`Char` grapheme clusters.
* Walks over parent chains and child trees (`find_nearest_theme`,
  `would_create_cycle`, `mark_dirty_ancestors`, `collect_focusable_*`,
  `hit_test_recursive`) terminate in Rust because the tree is a forest
  (invariant I3); the embedding makes them structurally terminating with a
  fuel argument that the callers instantiate with the node-table size, an
  upper bound for every chain in a forest.
* Rust functions returning `Result<_, String>` are embedded with
  `Except String _`; every `return Err(..)` in the translated sources
  occurs before the first state mutation (for `insert_child`, whose claim
  C5 asserts exactly this, the guard-before-mutation order is part of what
  the theorems check), so an `.error` result leaves the embedded state
  unchanged by construction.
-/

namespace KrakenTui

/-- Association-list lookup: first binding for the key wins
(embeds `HashMap::get`). -/
def alookup {α : Type} (m : List (Nat × α)) (k : Nat) : Option α :=
  match m with
  | [] => none
  | (k', v) :: rest => if k' = k then some v else alookup rest k

/-- Replace the value bound to `k` (embeds mutation through
`HashMap::get_mut`); keys and order are preserved, absent keys ignored. -/
def aupdate {α : Type} (m : List (Nat × α)) (k : Nat) (f : α → α) :
    List (Nat × α) :=
  m.map (fun p => if p.1 = k then (p.1, f p.2) else p)

/-- Remove the bindings of `k` (embeds `HashMap::remove`). -/
def aerase {α : Type} (m : List (Nat × α)) (k : Nat) : List (Nat × α) :=
  match m with
  | [] => []
  | (k', v) :: rest => if k' = k then aerase rest k else (k', v) :: aerase rest k

/-- Insert a fresh binding (embeds `HashMap::insert` for a key known to be
absent, which is how the sources use it for handle allocation). -/
def ainsert {α : Type} (m : List (Nat × α)) (k : Nat) (v : α) :
    List (Nat × α) :=
  (k, v) :: m

-- ===========================================================================
-- types.rs — node kinds, styles, cells, buffers, events
-- ===========================================================================

/-- `NodeType` (types.rs).  The `TextArea` variant is *modelled from the
spec*: the checked-in `types.rs` predates it, while `event.rs` in the same
tree matches on `NodeType::TextArea` and reads the TextArea cursor fields;
the spec lists the kind set as {Container(Box), Text, Input, Select,
TextArea, ScrollContainer(ScrollBox)}. -/
inductive NodeType where
  | Box
  | Text
  | Input
  | Select
  | ScrollBox
  | TextArea
  deriving DecidableEq, Repr

/-- `BorderStyle` (types.rs). -/
inductive BorderStyle where
  | None
  | Single
  | Double
  | Rounded
  | Bold
  deriving DecidableEq, Repr

/-- `VisualStyle` (types.rs).  Colors are the `u32` tagged words as naturals
embedded in `ℚ`; `attrs` is the `CellAttrs` bitflag byte; `style_mask` the
presence bitmask. -/
structure VisualStyle where
  fg_color : ℚ
  bg_color : ℚ
  border_style : BorderStyle
  border_color : ℚ
  attrs : Nat
  opacity : ℚ
  style_mask : Nat
  deriving DecidableEq, Repr

namespace VisualStyle

def MASK_FG_COLOR : Nat := 1
def MASK_BG_COLOR : Nat := 2
def MASK_BORDER_COLOR : Nat := 4
def MASK_BORDER_STYLE : Nat := 8
def MASK_ATTRS : Nat := 16
def MASK_OPACITY : Nat := 32
def MASK_ALL : Nat := 63

/-- `VisualStyle::default()` (types.rs). -/
def default : VisualStyle :=
  { fg_color := 0
    bg_color := 0
    border_style := .None
    border_color := 0
    attrs := 0
    opacity := 1
    style_mask := 0 }

end VisualStyle

/-- `TuiNode` (types.rs).  The TextArea cursor/viewport/wrap fields and the
`render_offset` pair are present in the node record used by `event.rs` and
`animation.rs` but missing from the checked-in `types.rs`; they are
modelled from the spec (§3 node record). -/
structure TuiNode where
  node_type : NodeType
  content : List Char
  children : List Nat
  parent : Option Nat
  visual_style : VisualStyle
  dirty : Bool
  focusable : Bool
  visible : Bool
  scroll_x : Int
  scroll_y : Int
  cursor_position : Nat
  max_length : Nat
  mask_char : Nat
  options : List (List Char)
  selected_index : Option Nat
  cursor_row : Nat
  cursor_col : Nat
  textarea_view_row : Nat
  textarea_view_col : Nat
  wrap_mode : Nat
  render_offset : ℚ × ℚ
  deriving DecidableEq, Repr

/-- `TuiNode::new` (types.rs).  The `focusable` default for the first five
kinds is translated from the source
(`matches!(node_type, NodeType::Input | NodeType::Select)`); the
`TextArea => true` case is modelled from the spec ("Input, Select, TextArea
default true; others default false"), the checked-in `types.rs` predating
the `TextArea` kind. -/
def TuiNode.new (node_type : NodeType) : TuiNode :=
  let focusable :=
    match node_type with
    | .Input => true
    | .Select => true
    | .TextArea => true
    | _ => false
  { node_type := node_type
    content := []
    children := []
    parent := none
    visual_style := VisualStyle.default
    dirty := true
    focusable := focusable
    visible := true
    scroll_x := 0
    scroll_y := 0
    cursor_position := 0
    max_length := 0
    mask_char := 0
    options := []
    selected_index := none
    cursor_row := 0
    cursor_col := 0
    textarea_view_row := 0
    textarea_view_col := 0
    wrap_mode := 0
    render_offset := (0, 0) }

/-- `Cell` (types.rs). -/
structure Cell where
  ch : Char
  fg : ℚ
  bg : ℚ
  attrs : Nat
  deriving DecidableEq, Repr

/-- `Cell::default()` (types.rs). -/
def Cell.default : Cell := { ch := ' ', fg := 0, bg := 0, attrs := 0 }

/-- `Buffer` (types.rs): W×H row-major grid. -/
structure Buffer where
  width : Nat
  height : Nat
  cells : List Cell
  deriving DecidableEq, Repr

/-- `Buffer::get` (types.rs). -/
def Buffer.get (b : Buffer) (x y : Nat) : Option Cell :=
  if x < b.width ∧ y < b.height then b.cells.get? (y * b.width + x) else none

/-- `TuiEvent` (types.rs): fixed-shape FFI event record. -/
structure TuiEvent where
  event_type : Nat
  target : Nat
  d0 : Nat
  d1 : Nat
  d2 : Nat
  d3 : Nat
  deriving DecidableEq, Repr

namespace TuiEvent

/-- `TuiEvent::key` (types.rs). -/
def key (target code modifiers codepoint : Nat) : TuiEvent :=
  ⟨1, target, code, modifiers, codepoint, 0⟩

/-- `TuiEvent::mouse` (types.rs). -/
def mouse (target x y button modifiers : Nat) : TuiEvent :=
  ⟨2, target, x, y, button, modifiers⟩

/-- `TuiEvent::resize` (types.rs). -/
def resize (width height : Nat) : TuiEvent :=
  ⟨3, 0, width, height, 0, 0⟩

/-- `TuiEvent::focus_change` (types.rs). -/
def focus_change (from_ to_ : Nat) : TuiEvent :=
  ⟨4, 0, from_, to_, 0, 0⟩

/-- `TuiEvent::change` (types.rs). -/
def change (target data0 : Nat) : TuiEvent :=
  ⟨5, target, data0, 0, 0, 0⟩

/-- `TuiEvent::submit` (types.rs). -/
def submit (target : Nat) : TuiEvent :=
  ⟨6, target, 0, 0, 0, 0⟩

end TuiEvent

-- Named key-code constants (types.rs, key module).
namespace key

def BACKSPACE : Nat := 0x0100
def ENTER : Nat := 0x0101
def LEFT : Nat := 0x0102
def RIGHT : Nat := 0x0103
def UP : Nat := 0x0104
def DOWN : Nat := 0x0105
def HOME : Nat := 0x0106
def END : Nat := 0x0107
def TAB : Nat := 0x010A
def BACK_TAB : Nat := 0x010B
def DELETE : Nat := 0x010C

end key

/-- `TerminalInputEvent` (types.rs): raw backend event.  The key
`character` is the Unicode scalar (`'\0'` = no character). -/
inductive TerminalInputEvent where
  | Key (code : Nat) (modifiers : Nat) (character : Char)
  | Mouse (x : Nat) (y : Nat) (button : Nat) (modifiers : Nat)
  | Resize (width : Nat) (height : Nat)
  | FocusGained
  | FocusLost
  deriving DecidableEq, Repr

/-- `color_tag` (types.rs): high byte of a `u32` color word. -/
def color_tag (color : Nat) : Nat := (color >>> 24) % 256

-- ===========================================================================
-- animation.rs — records
-- ===========================================================================

/-- `AnimProp` (types.rs). -/
inductive AnimProp where
  | Opacity
  | FgColor
  | BgColor
  | BorderColor
  | PositionX
  | PositionY
  deriving DecidableEq, Repr

/-- `Easing` (types.rs). -/
inductive Easing where
  | Linear
  | EaseIn
  | EaseOut
  | EaseInOut
  | CubicIn
  | CubicOut
  | Elastic
  | Bounce
  deriving DecidableEq, Repr

/-- `SpinnerState` (animation.rs). -/
structure SpinnerState where
  frames : List (List Char)
  frame_idx : Nat
  interval_ms : Nat
  frame_elapsed : ℚ
  deriving DecidableEq, Repr

/-- `Animation` (animation.rs). -/
structure Animation where
  id : Nat
  target : Nat
  property : AnimProp
  start_bits : ℚ
  end_bits : ℚ
  duration_ms : Nat
  elapsed_ms : ℚ
  easing : Easing
  looping : Bool
  pending : Bool
  spinner : Option SpinnerState
  deriving DecidableEq, Repr

/-- `ChoreographyMember` (animation.rs). -/
structure ChoreographyMember where
  anim_id : Nat
  start_at_ms : Nat
  started : Bool
  deriving DecidableEq, Repr

/-- `ChoreographyGroup` (animation.rs). -/
structure ChoreographyGroup where
  running : Bool
  elapsed_ms : ℚ
  members : List ChoreographyMember
  deriving DecidableEq, Repr

-- ===========================================================================
-- theme.rs — theme record
-- ===========================================================================

/-- `Theme` (theme.rs).  Per-kind `type_defaults` are stored but not read by
`resolve_style`, so they are carried as an association list keyed by the
kind's discriminant. -/
structure Theme where
  fg_color : ℚ
  bg_color : ℚ
  border_color : ℚ
  border_style : BorderStyle
  attrs : Nat
  opacity : ℚ
  mask : Nat
  deriving DecidableEq, Repr

-- ===========================================================================
-- context.rs — the context record
-- ===========================================================================

/-- A computed solver layout rectangle for one node
(`taffy::Layout`: location and size), in f32-as-ℚ. -/
structure Layout where
  x : ℚ
  y : ℚ
  width : ℚ
  height : ℚ
  deriving DecidableEq, Repr

/-- `TuiContext` (context.rs), restricted to the fields the claims touch.
`layouts` embeds the solver's layout store keyed by node handle (see the
header notes); `choreo_groups` / `next_choreo_group_handle` are used by
`animation.rs` (the checked-in `context.rs` predates them). -/
structure TuiContext where
  nodes : List (Nat × TuiNode)
  next_handle : Nat
  root : Option Nat
  event_buffer : List TuiEvent
  focused : Option Nat
  front_buffer : Buffer
  back_buffer : Buffer
  themes : List (Nat × Theme)
  theme_bindings : List (Nat × Nat)
  animations : List Animation
  animation_chains : List (Nat × Nat)
  next_anim_handle : Nat
  choreo_groups : List (Nat × ChoreographyGroup)
  layouts : List (Nat × Layout)
  term_width : Nat
  term_height : Nat
  deriving DecidableEq, Repr

/-- `TuiContext::validate_handle` (context.rs). -/
def TuiContext.validate_handle (ctx : TuiContext) (handle : Nat) :
    Except String Unit :=
  if handle = 0 then
    .error "Handle(0) is the invalid sentinel"
  else if (alookup ctx.nodes handle).isNone then
    .error ("Invalid handle: " ++ toString handle)
  else
    .ok ()

end KrakenTui

namespace KrakenTui

-- ===========================================================================
-- scroll.rs — viewport state management
-- ===========================================================================

/-- Rust `f32 as i32`: truncation toward zero (saturation is irrelevant at
terminal-cell magnitudes). -/
def rtrunc (q : ℚ) : Int := if 0 ≤ q then ⌊q⌋ else ⌈q⌉

/-- Rust `i32::clamp(lo, hi)` for `lo ≤ hi`. -/
def iclamp (v lo hi : Int) : Int := if v < lo then lo else if v > hi then hi else v

/-- `compute_max_scroll` (scroll.rs): `(max_scroll_x, max_scroll_y)`, each
`max(0, child_size - viewport_size)` with the viewport reduced by the border
inset and floored at zero; `(0, 0)` when the ScrollBox has no children or no
computed layout. -/
def compute_max_scroll (ctx : TuiContext) (handle : Nat) : Int × Int :=
  match alookup ctx.nodes handle with
  | none => (0, 0)
  | some node =>
    match alookup ctx.layouts handle with
    | none => (0, 0)
    | some sb_layout =>
      let viewport_w := rtrunc sb_layout.width
      let viewport_h := rtrunc sb_layout.height
      let viewport_w :=
        if node.visual_style.border_style ≠ BorderStyle.None then
          max (viewport_w - 2) 0
        else viewport_w
      let viewport_h :=
        if node.visual_style.border_style ≠ BorderStyle.None then
          max (viewport_h - 2) 0
        else viewport_h
      match node.children.head? with
      | none => (0, 0)
      | some child_handle =>
        match alookup ctx.nodes child_handle with
        | none => (0, 0)
        | some _child_node =>
          match alookup ctx.layouts child_handle with
          | none => (0, 0)
          | some child_layout =>
            let child_w := rtrunc child_layout.width
            let child_h := rtrunc child_layout.height
            (max (child_w - viewport_w) 0, max (child_h - viewport_h) 0)

/-- The scroll bound exactly as claim C1 words it: the effective viewport is
the layout size reduced by 2 per axis when the border style is not `None`
(without the source's extra floor of the reduced viewport at zero), and the
bound is `max(0, child_dim - effective_viewport_dim)`; `(0, 0)` with no
child or no computed layout. -/
def claim_max_scroll (ctx : TuiContext) (handle : Nat) : Int × Int :=
  match alookup ctx.nodes handle with
  | none => (0, 0)
  | some node =>
    match alookup ctx.layouts handle with
    | none => (0, 0)
    | some sb_layout =>
      let viewport_w := rtrunc sb_layout.width
      let viewport_h := rtrunc sb_layout.height
      let viewport_w :=
        if node.visual_style.border_style ≠ BorderStyle.None then
          viewport_w - 2
        else viewport_w
      let viewport_h :=
        if node.visual_style.border_style ≠ BorderStyle.None then
          viewport_h - 2
        else viewport_h
      match node.children.head? with
      | none => (0, 0)
      | some child_handle =>
        match alookup ctx.nodes child_handle with
        | none => (0, 0)
        | some _child_node =>
          match alookup ctx.layouts child_handle with
          | none => (0, 0)
          | some child_layout =>
            let child_w := rtrunc child_layout.width
            let child_h := rtrunc child_layout.height
            (max (child_w - viewport_w) 0, max (child_h - viewport_h) 0)

/-- `set_scroll` (scroll.rs): clamp both axes to `[0, max_scroll]`; error on
an unknown handle or a node that is not a ScrollBox. -/
def set_scroll (ctx : TuiContext) (handle : Nat) (x y : Int) :
    Except String TuiContext :=
  match alookup ctx.nodes handle with
  | none => .error ("Invalid handle: " ++ toString handle)
  | some node =>
    if node.node_type ≠ NodeType.ScrollBox then
      .error ("Handle " ++ toString handle ++ " is not a ScrollBox")
    else
      let m := compute_max_scroll ctx handle
      .ok { ctx with
              nodes := aupdate ctx.nodes handle (fun n =>
                { n with
                    scroll_x := iclamp x 0 m.1
                    scroll_y := iclamp y 0 m.2
                    dirty := true }) }

/-- `scroll_by` (scroll.rs): add the delta then clamp to `[0, max_scroll]`;
silently a no-op for a non-ScrollBox handle. -/
def scroll_by (ctx : TuiContext) (handle : Nat) (dx dy : Int) : TuiContext :=
  let is_scrollbox : Bool :=
    match alookup ctx.nodes handle with
    | some n => n.node_type = NodeType.ScrollBox
    | none => false
  if ¬ is_scrollbox then ctx
  else
    let m := compute_max_scroll ctx handle
    { ctx with
        nodes := aupdate ctx.nodes handle (fun n =>
          { n with
              scroll_x := iclamp (n.scroll_x + dx) 0 m.1
              scroll_y := iclamp (n.scroll_y + dy) 0 m.2
              dirty := true }) }

/-- `get_scroll` (scroll.rs). -/
def get_scroll (ctx : TuiContext) (handle : Nat) : Except String (Int × Int) :=
  match alookup ctx.nodes handle with
  | none => .error ("Invalid handle: " ++ toString handle)
  | some node =>
    if node.node_type ≠ NodeType.ScrollBox then
      .error ("Handle " ++ toString handle ++ " is not a ScrollBox")
    else
      .ok (node.scroll_x, node.scroll_y)

end KrakenTui

namespace KrakenTui

-- ===========================================================================
-- Map helper lemmas
-- ===========================================================================

theorem alookup_aupdate_self {α : Type} (m : List (Nat × α)) (k : Nat)
    (f : α → α) : alookup (aupdate m k f) k = (alookup m k).map f := by
  induction m with
  | nil => rfl
  | cons p rest ih =>
    obtain ⟨a, v⟩ := p
    simp only [aupdate, List.map_cons]
    by_cases h : a = k
    · rw [if_pos h]
      simp only [alookup]
      rw [if_pos h, if_pos h]
      rfl
    · rw [if_neg h]
      simp only [alookup]
      rw [if_neg h, if_neg h]
      exact ih

theorem alookup_aupdate_ne {α : Type} (m : List (Nat × α)) (k k' : Nat)
    (f : α → α) (hne : k' ≠ k) :
    alookup (aupdate m k f) k' = alookup m k' := by
  induction m with
  | nil => rfl
  | cons p rest ih =>
    obtain ⟨a, v⟩ := p
    simp only [aupdate, List.map_cons]
    by_cases h : a = k
    · have h2 : a ≠ k' := fun hc => hne (by rw [← hc, h])
      rw [if_pos h]
      simp only [alookup]
      rw [if_neg h2, if_neg h2]
      exact ih
    · rw [if_neg h]
      simp only [alookup]
      by_cases h2 : a = k'
      · rw [if_pos h2, if_pos h2]
      · rw [if_neg h2, if_neg h2]
        exact ih

-- ===========================================================================
-- Claim C1 — scroll clamp
-- ===========================================================================

theorem iclamp_mem (v m : Int) (hm : 0 ≤ m) :
    0 ≤ iclamp v 0 m ∧ iclamp v 0 m ≤ m := by
  unfold iclamp
  split
  · omega
  · split <;> omega

theorem compute_max_scroll_nonneg (ctx : TuiContext) (h : Nat) :
    0 ≤ (compute_max_scroll ctx h).1 ∧ 0 ≤ (compute_max_scroll ctx h).2 := by
  unfold compute_max_scroll
  repeat' split
  all_goals simp

theorem compute_max_scroll_le_claim (ctx : TuiContext) (h : Nat) :
    (compute_max_scroll ctx h).1 ≤ (claim_max_scroll ctx h).1 ∧
    (compute_max_scroll ctx h).2 ≤ (claim_max_scroll ctx h).2 := by
  unfold compute_max_scroll claim_max_scroll
  repeat' split
  all_goals simp_all
  all_goals constructor <;> omega

/-- Claim C1: after any `set_scroll(h, x, y)` or `scroll_by(h, dx, dy)` on a
ScrollBox (ScrollContainer) node, the stored scroll offsets satisfy
`0 ≤ sx ≤ mx` and `0 ≤ sy ≤ my`, where `(mx, my)` is the claim's bound
(child layout size minus the viewport reduced by 2 per axis when the border
style is not `None`, floored at zero; `(0, 0)` with no child or no computed
layout); `set_scroll` on a non-ScrollBox node returns an error and
`scroll_by` on such a node is a silent no-op. -/
theorem scroll_offsets_clamped (ctx : TuiContext) (h : Nat) (x y : Int)
    (node : TuiNode) (hnode : alookup ctx.nodes h = some node) :
    (node.node_type = NodeType.ScrollBox →
      ∃ ctx' node', set_scroll ctx h x y = .ok ctx' ∧
        alookup ctx'.nodes h = some node' ∧
        0 ≤ node'.scroll_x ∧ node'.scroll_x ≤ (claim_max_scroll ctx h).1 ∧
        0 ≤ node'.scroll_y ∧ node'.scroll_y ≤ (claim_max_scroll ctx h).2) ∧
    (node.node_type = NodeType.ScrollBox →
      ∃ node', alookup (scroll_by ctx h x y).nodes h = some node' ∧
        0 ≤ node'.scroll_x ∧ node'.scroll_x ≤ (claim_max_scroll ctx h).1 ∧
        0 ≤ node'.scroll_y ∧ node'.scroll_y ≤ (claim_max_scroll ctx h).2) ∧
    (node.node_type ≠ NodeType.ScrollBox →
      (∃ e, set_scroll ctx h x y = .error e) ∧ scroll_by ctx h x y = ctx) := by
  have hnn := compute_max_scroll_nonneg ctx h
  have hle := compute_max_scroll_le_claim ctx h
  refine ⟨fun hsb => ?_, fun hsb => ?_, fun hnsb => ?_⟩
  · have hset : set_scroll ctx h x y = .ok
        { ctx with
            nodes := aupdate ctx.nodes h (fun n =>
              { n with
                  scroll_x := iclamp x 0 (compute_max_scroll ctx h).1
                  scroll_y := iclamp y 0 (compute_max_scroll ctx h).2
                  dirty := true }) } := by
      rw [set_scroll, hnode]
      simp [hsb]
    refine ⟨_,
      { node with
          scroll_x := iclamp x 0 (compute_max_scroll ctx h).1
          scroll_y := iclamp y 0 (compute_max_scroll ctx h).2
          dirty := true },
      hset, ?_, ?_, ?_, ?_, ?_⟩
    · dsimp only
      rw [alookup_aupdate_self, hnode]
      rfl
    · exact (iclamp_mem x _ hnn.1).1
    · exact le_trans (iclamp_mem x _ hnn.1).2 hle.1
    · exact (iclamp_mem y _ hnn.2).1
    · exact le_trans (iclamp_mem y _ hnn.2).2 hle.2
  · have hby : scroll_by ctx h x y =
        { ctx with
            nodes := aupdate ctx.nodes h (fun n =>
              { n with
                  scroll_x := iclamp (n.scroll_x + x) 0 (compute_max_scroll ctx h).1
                  scroll_y := iclamp (n.scroll_y + y) 0 (compute_max_scroll ctx h).2
                  dirty := true }) } := by
      rw [scroll_by, hnode]
      simp [hsb]
    refine ⟨{ node with
          scroll_x := iclamp (node.scroll_x + x) 0 (compute_max_scroll ctx h).1
          scroll_y := iclamp (node.scroll_y + y) 0 (compute_max_scroll ctx h).2
          dirty := true }, ?_, ?_, ?_, ?_, ?_⟩
    · rw [hby]
      dsimp only
      rw [alookup_aupdate_self, hnode]
      rfl
    · exact (iclamp_mem _ _ hnn.1).1
    · exact le_trans (iclamp_mem _ _ hnn.1).2 hle.1
    · exact (iclamp_mem _ _ hnn.2).1
    · exact le_trans (iclamp_mem _ _ hnn.2).2 hle.2
  · constructor
    · refine ⟨"Handle " ++ toString h ++ " is not a ScrollBox", ?_⟩
      rw [set_scroll, hnode]
      simp [hnsb]
    · rw [scroll_by, hnode]
      simp [hnsb]

-- ===========================================================================
-- Concrete fixtures used by the claim witnesses
-- ===========================================================================

def exEmptyBuffer : Buffer := { width := 0, height := 0, cells := [] }

def exBaseCtx : TuiContext :=
  { nodes := []
    next_handle := 1
    root := none
    event_buffer := []
    focused := none
    front_buffer := exEmptyBuffer
    back_buffer := exEmptyBuffer
    themes := []
    theme_bindings := []
    animations := []
    animation_chains := []
    next_anim_handle := 1
    choreo_groups := []
    layouts := []
    term_width := 80
    term_height := 24 }

def exSbNode : TuiNode := { TuiNode.new .ScrollBox with children := [2] }

/-- A 10×5 ScrollBox (handle 1) holding a 20×15 Box child (handle 2), with
computed layouts, as in the scroll.rs unit tests. -/
def exScrollCtx : TuiContext :=
  { exBaseCtx with
      nodes := [(1, exSbNode), (2, { TuiNode.new .Box with parent := some 1 })]
      next_handle := 3
      root := some 1
      layouts := [(1, ⟨0, 0, 10, 5⟩), (2, ⟨0, 0, 20, 15⟩)] }

/-- Witness for claim C1's theorem: `set_scroll(1, 100, 100)` on the
concrete 10×5 ScrollBox with a 20×15 child lands inside the claimed
bounds. -/
theorem scroll_offsets_clamped_witness :
    alookup exScrollCtx.nodes 1 = some exSbNode ∧
    (∃ ctx' node', set_scroll exScrollCtx 1 100 100 = .ok ctx' ∧
      alookup ctx'.nodes 1 = some node' ∧
      0 ≤ node'.scroll_x ∧
      node'.scroll_x ≤ (claim_max_scroll exScrollCtx 1).1 ∧
      0 ≤ node'.scroll_y ∧
      node'.scroll_y ≤ (claim_max_scroll exScrollCtx 1).2) :=
  ⟨rfl, (scroll_offsets_clamped exScrollCtx 1 100 100 exSbNode rfl).1 rfl⟩

-- ===========================================================================
-- style.rs — style resolution (claim C2)
-- ===========================================================================

/-- The ancestor walk of `find_nearest_theme` (style.rs), fuelled (see the
header notes): from `current`, return the theme named by the first binding
encountered; step to the parent otherwise. -/
def find_nearest_theme_fuel (ctx : TuiContext) : Nat → Nat → Option Theme
  | 0, _ => none
  | fuel + 1, current =>
    match alookup ctx.theme_bindings current with
    | some theme_handle => alookup ctx.themes theme_handle
    | none =>
      match (alookup ctx.nodes current).bind (fun n => n.parent) with
      | some parent => find_nearest_theme_fuel ctx fuel parent
      | none => none

/-- `find_nearest_theme` (style.rs): walk from the node up through its
ancestors; the node-table size bounds every ancestor chain of a forest. -/
def find_nearest_theme (handle : Nat) (ctx : TuiContext) : Option Theme :=
  find_nearest_theme_fuel ctx (ctx.nodes.length + 1) handle

/-- `resolve_style` (style.rs): explicit node properties win; unset ones fall
back to the nearest ancestor theme's set properties; otherwise the node's
stored (default) value stands. -/
def resolve_style (handle : Nat) (ctx : TuiContext) : VisualStyle :=
  match alookup ctx.nodes handle with
  | none => VisualStyle.default
  | some node =>
    let node_style := node.visual_style
    let mask := node_style.style_mask
    if mask = VisualStyle.MASK_ALL then node_style
    else if ctx.theme_bindings.isEmpty then node_style
    else
      match find_nearest_theme handle ctx with
      | none => node_style
      | some theme =>
        let resolved := node_style
        let resolved :=
          if mask &&& VisualStyle.MASK_FG_COLOR = 0 ∧
              theme.mask &&& VisualStyle.MASK_FG_COLOR ≠ 0 then
            { resolved with fg_color := theme.fg_color }
          else resolved
        let resolved :=
          if mask &&& VisualStyle.MASK_BG_COLOR = 0 ∧
              theme.mask &&& VisualStyle.MASK_BG_COLOR ≠ 0 then
            { resolved with bg_color := theme.bg_color }
          else resolved
        let resolved :=
          if mask &&& VisualStyle.MASK_BORDER_COLOR = 0 ∧
              theme.mask &&& VisualStyle.MASK_BORDER_COLOR ≠ 0 then
            { resolved with border_color := theme.border_color }
          else resolved
        let resolved :=
          if mask &&& VisualStyle.MASK_BORDER_STYLE = 0 ∧
              theme.mask &&& VisualStyle.MASK_BORDER_STYLE ≠ 0 then
            { resolved with border_style := theme.border_style }
          else resolved
        let resolved :=
          if mask &&& VisualStyle.MASK_ATTRS = 0 ∧
              theme.mask &&& VisualStyle.MASK_ATTRS ≠ 0 then
            { resolved with attrs := theme.attrs }
          else resolved
        let resolved :=
          if mask &&& VisualStyle.MASK_OPACITY = 0 ∧
              theme.mask &&& VisualStyle.MASK_OPACITY ≠ 0 then
            { resolved with opacity := theme.opacity }
          else resolved
        resolved

theorem find_nearest_theme_fuel_nil_bindings (ctx : TuiContext)
    (hb : ctx.theme_bindings = []) (fuel current : Nat) :
    find_nearest_theme_fuel ctx fuel current = none := by
  induction fuel generalizing current with
  | zero => rfl
  | succ n ih =>
    rw [find_nearest_theme_fuel, hb]
    show (match (none : Option Nat) with
      | some theme_handle => alookup ctx.themes theme_handle
      | none =>
        match (alookup ctx.nodes current).bind (fun n => n.parent) with
        | some parent => find_nearest_theme_fuel ctx n parent
        | none => none) = none
    cases hp : (alookup ctx.nodes current).bind (fun n => n.parent) with
    | none => rfl
    | some parent => exact ih parent

/-- The cascade exactly as claim C2 words it, for one property: the node's
stored value when the node's presence bit for the property is set; else the
theme's value when the ancestor walk finds a theme whose bit is set; else
the node's stored (default) value. -/
def claim_cascade {α : Type} (nodeMask bit : Nat) (theme : Option Theme)
    (themeVal : Theme → α) (nodeVal : α) : α :=
  if nodeMask &&& bit ≠ 0 then nodeVal
  else
    match theme with
    | some t => if t.mask &&& bit ≠ 0 then themeVal t else nodeVal
    | none => nodeVal

theorem claim_cascade_none {α : Type} (nodeMask bit : Nat)
    (themeVal : Theme → α) (nodeVal : α) :
    claim_cascade nodeMask bit none themeVal nodeVal = nodeVal := by
  unfold claim_cascade
  split <;> rfl

/-- Claim C2: for every node and every cascading property (fg, bg,
border-color, border-style, attrs, opacity), the resolved style carries the
node's stored value when the node's presence bit is set, else the nearest
ancestor theme's value when that theme sets the property, else the node's
stored value. -/
theorem resolve_style_theme_cascade (ctx : TuiContext) (h : Nat)
    (node : TuiNode) (hnode : alookup ctx.nodes h = some node) :
    (resolve_style h ctx).fg_color =
      claim_cascade node.visual_style.style_mask VisualStyle.MASK_FG_COLOR
        (find_nearest_theme h ctx) Theme.fg_color node.visual_style.fg_color ∧
    (resolve_style h ctx).bg_color =
      claim_cascade node.visual_style.style_mask VisualStyle.MASK_BG_COLOR
        (find_nearest_theme h ctx) Theme.bg_color node.visual_style.bg_color ∧
    (resolve_style h ctx).border_color =
      claim_cascade node.visual_style.style_mask VisualStyle.MASK_BORDER_COLOR
        (find_nearest_theme h ctx) Theme.border_color
        node.visual_style.border_color ∧
    (resolve_style h ctx).border_style =
      claim_cascade node.visual_style.style_mask VisualStyle.MASK_BORDER_STYLE
        (find_nearest_theme h ctx) Theme.border_style
        node.visual_style.border_style ∧
    (resolve_style h ctx).attrs =
      claim_cascade node.visual_style.style_mask VisualStyle.MASK_ATTRS
        (find_nearest_theme h ctx) Theme.attrs node.visual_style.attrs ∧
    (resolve_style h ctx).opacity =
      claim_cascade node.visual_style.style_mask VisualStyle.MASK_OPACITY
        (find_nearest_theme h ctx) Theme.opacity node.visual_style.opacity := by
  rw [resolve_style, hnode]
  dsimp only
  by_cases hall : node.visual_style.style_mask = VisualStyle.MASK_ALL
  · rw [if_pos hall]
    refine ⟨?_, ?_, ?_, ?_, ?_, ?_⟩ <;>
      simp [claim_cascade, hall, VisualStyle.MASK_ALL, VisualStyle.MASK_FG_COLOR,
        VisualStyle.MASK_BG_COLOR, VisualStyle.MASK_BORDER_COLOR,
        VisualStyle.MASK_BORDER_STYLE, VisualStyle.MASK_ATTRS,
        VisualStyle.MASK_OPACITY]
  · rw [if_neg hall]
    by_cases hemp : ctx.theme_bindings.isEmpty
    · rw [if_pos hemp]
      have hnone : find_nearest_theme h ctx = none :=
        find_nearest_theme_fuel_nil_bindings ctx
          (List.isEmpty_iff.mp hemp) _ _
      rw [hnone]
      refine ⟨?_, ?_, ?_, ?_, ?_, ?_⟩ <;> rw [claim_cascade_none]
    · rw [if_neg hemp]
      cases hth : find_nearest_theme h ctx with
      | none => refine ⟨?_, ?_, ?_, ?_, ?_, ?_⟩ <;> rw [claim_cascade_none]
      | some theme =>
        refine ⟨?_, ?_, ?_, ?_, ?_, ?_⟩
        · simp only [apply_ite (VisualStyle.fg_color)]
          simp only [ite_self]
          simp only [claim_cascade]
          by_cases h1 : node.visual_style.style_mask &&&
              VisualStyle.MASK_FG_COLOR = 0 <;>
            by_cases h2 : theme.mask &&& VisualStyle.MASK_FG_COLOR ≠ 0 <;>
            simp [h1, h2]
        · simp only [apply_ite (VisualStyle.bg_color)]
          simp only [ite_self]
          simp only [claim_cascade]
          by_cases h1 : node.visual_style.style_mask &&&
              VisualStyle.MASK_BG_COLOR = 0 <;>
            by_cases h2 : theme.mask &&& VisualStyle.MASK_BG_COLOR ≠ 0 <;>
            simp [h1, h2]
        · simp only [apply_ite (VisualStyle.border_color)]
          simp only [ite_self]
          simp only [claim_cascade]
          by_cases h1 : node.visual_style.style_mask &&&
              VisualStyle.MASK_BORDER_COLOR = 0 <;>
            by_cases h2 : theme.mask &&& VisualStyle.MASK_BORDER_COLOR ≠ 0 <;>
            simp [h1, h2]
        · simp only [apply_ite (VisualStyle.border_style)]
          simp only [ite_self]
          simp only [claim_cascade]
          by_cases h1 : node.visual_style.style_mask &&&
              VisualStyle.MASK_BORDER_STYLE = 0 <;>
            by_cases h2 : theme.mask &&& VisualStyle.MASK_BORDER_STYLE ≠ 0 <;>
            simp [h1, h2]
        · simp only [apply_ite (VisualStyle.attrs)]
          simp only [ite_self]
          simp only [claim_cascade]
          by_cases h1 : node.visual_style.style_mask &&&
              VisualStyle.MASK_ATTRS = 0 <;>
            by_cases h2 : theme.mask &&& VisualStyle.MASK_ATTRS ≠ 0 <;>
            simp [h1, h2]
        · simp only [apply_ite (VisualStyle.opacity)]
          simp only [ite_self]
          simp only [claim_cascade]
          by_cases h1 : node.visual_style.style_mask &&&
              VisualStyle.MASK_OPACITY = 0 <;>
            by_cases h2 : theme.mask &&& VisualStyle.MASK_OPACITY ≠ 0 <;>
            simp [h1, h2]

/-- The built-in dark theme, handle 1 (`create_builtin_themes`, theme.rs). -/
def dark_theme : Theme :=
  { fg_color := 0x01E0E0E0
    bg_color := 0x011E1E2E
    border_color := 0x014A4A5A
    border_style := .Single
    attrs := 0
    opacity := 1
    mask := VisualStyle.MASK_ALL }

/-- A Text node (handle 2) with an explicit red foreground under a Box root
(handle 1) bound to the dark theme. -/
def exThemedNode : TuiNode :=
  { TuiNode.new .Text with
      parent := some 1
      visual_style :=
        { VisualStyle.default with
            fg_color := 0x01FF0000
            style_mask := VisualStyle.MASK_FG_COLOR } }

def exThemeCtx : TuiContext :=
  { exBaseCtx with
      nodes := [(1, { TuiNode.new .Box with children := [2] }),
                (2, exThemedNode)]
      next_handle := 3
      root := some 1
      themes := [(1, dark_theme)]
      theme_bindings := [(1, 1)] }

/-- Witness for claim C2's theorem: the themed Text node's resolved
foreground follows the cascade at a concrete context. -/
theorem resolve_style_theme_cascade_witness :
    alookup exThemeCtx.nodes 2 = some exThemedNode ∧
    (resolve_style 2 exThemeCtx).fg_color =
      claim_cascade exThemedNode.visual_style.style_mask
        VisualStyle.MASK_FG_COLOR (find_nearest_theme 2 exThemeCtx)
        Theme.fg_color exThemedNode.visual_style.fg_color :=
  ⟨rfl, (resolve_style_theme_cascade exThemeCtx 2 exThemedNode rfl).1⟩

-- ===========================================================================
-- Claim C9 — focusable defaults by node kind
-- ===========================================================================

/-- Claim C9: a freshly created node's focusable flag defaults to true
exactly when its kind is Input, Select, or TextArea, and to false for every
other kind (Box/Container, Text, ScrollBox/ScrollContainer). -/
theorem focusable_default_by_kind (k : NodeType) :
    (TuiNode.new k).focusable = true ↔
      (k = NodeType.Input ∨ k = NodeType.Select ∨ k = NodeType.TextArea) := by
  cases k <;> simp [TuiNode.new]

-- ===========================================================================
-- render.rs — buffer diffing (claim C8)
-- ===========================================================================

/-- `CellUpdate` (types.rs): absolute position plus the new cell. -/
structure CellUpdate where
  x : Nat
  y : Nat
  cell : Cell
  deriving DecidableEq, Repr

/-- `diff_buffers` (render.rs): row-major scan of the front buffer; a cell
whose prior back-buffer counterpart differs (or is missing) produces a
`CellUpdate` carrying the front cell.  `front.get(x, y).unwrap()` is
embedded with the default cell as the (unreachable in a well-formed buffer)
fallback. -/
def diff_buffers (ctx : TuiContext) : List CellUpdate :=
  (List.range ctx.front_buffer.height).flatMap (fun y =>
    (List.range ctx.front_buffer.width).filterMap (fun x =>
      let front := (ctx.front_buffer.get x y).getD Cell.default
      let back := ctx.back_buffer.get x y
      let changed : Bool :=
        match back with
        | some b => decide (front ≠ b)
        | none => true
      if changed then some ⟨x, y, front⟩ else none))

/-- Claim C8: the diff computed by render is exact — for every coordinate of
the front buffer, a `CellUpdate` for `(x, y)` is in the diff list iff the
front cell at `(x, y)` differs structurally from the prior back-buffer cell
there (missing back-buffer coordinates count as differing), and the update
carries the front-buffer cell. -/
theorem diff_buffers_exact (ctx : TuiContext) (x y : Nat) (c : Cell) :
    (CellUpdate.mk x y c ∈ diff_buffers ctx) ↔
      (x < ctx.front_buffer.width ∧ y < ctx.front_buffer.height ∧
       c = (ctx.front_buffer.get x y).getD Cell.default ∧
       ctx.back_buffer.get x y ≠
         some ((ctx.front_buffer.get x y).getD Cell.default)) := by
  have hchanged : ∀ x' y',
      ((match ctx.back_buffer.get x' y' with
        | some b =>
          decide ((ctx.front_buffer.get x' y').getD Cell.default ≠ b)
        | none => true) = true) ↔
      ctx.back_buffer.get x' y' ≠
        some ((ctx.front_buffer.get x' y').getD Cell.default) := by
    intro x' y'
    cases hb : ctx.back_buffer.get x' y' with
    | none => simp
    | some b =>
      simp only [decide_eq_true_eq]
      constructor
      · intro hne hc
        exact hne (by injection hc with h; rw [h])
      · intro hne hc
        exact hne (by rw [hc])
  constructor
  · intro hmem
    simp only [diff_buffers, List.mem_flatMap, List.mem_filterMap,
      List.mem_range] at hmem
    obtain ⟨y', hy', x', hx', heq⟩ := hmem
    by_cases hch : (match ctx.back_buffer.get x' y' with
        | some b =>
          decide ((ctx.front_buffer.get x' y').getD Cell.default ≠ b)
        | none => true) = true
    · rw [if_pos hch] at heq
      injection heq with heq
      cases heq
      exact ⟨hx', hy', rfl, (hchanged x y).mp hch⟩
    · rw [if_neg hch] at heq
      exact absurd heq (by simp)
  · rintro ⟨hx, hy, hc, hne⟩
    simp only [diff_buffers, List.mem_flatMap, List.mem_filterMap,
      List.mem_range]
    refine ⟨y, hy, x, hx, ?_⟩
    rw [if_pos ((hchanged x y).mpr hne)]
    rw [hc]

def exCellA : Cell := { ch := 'A', fg := 0, bg := 0, attrs := 0 }

def exCellB : Cell := { ch := 'B', fg := 0, bg := 0, attrs := 0 }

def exCellC : Cell := { ch := 'C', fg := 0, bg := 0, attrs := 0 }

/-- 2×1 front/back buffers that differ exactly at `(1, 0)`. -/
def exDiffCtx : TuiContext :=
  { exBaseCtx with
      front_buffer := { width := 2, height := 1, cells := [exCellA, exCellB] }
      back_buffer := { width := 2, height := 1, cells := [exCellA, exCellC] } }

/-- Witness for claim C8's theorem: the changed cell `(1, 0)` of the
concrete buffers is reported. -/
theorem diff_buffers_exact_witness :
    CellUpdate.mk 1 0 exCellB ∈ diff_buffers exDiffCtx :=
  (diff_buffers_exact exDiffCtx 1 0 exCellB).mpr (by decide)

-- ===========================================================================
-- tree.rs — dirty propagation, cycle check, insert, destroy
-- ===========================================================================

/-- The upward walk of `mark_dirty_ancestors` (tree.rs), fuelled: set dirty
on the current node and step to its parent. -/
def mark_dirty_ancestors_fuel : Nat → TuiContext → Nat → TuiContext
  | 0, ctx, _ => ctx
  | fuel + 1, ctx, handle =>
    match alookup ctx.nodes handle with
    | none => ctx
    | some node =>
      let ctx' := { ctx with
        nodes := aupdate ctx.nodes handle (fun n => { n with dirty := true }) }
      match node.parent with
      | some parent => mark_dirty_ancestors_fuel fuel ctx' parent
      | none => ctx'

/-- `mark_dirty_ancestors` (tree.rs). -/
def mark_dirty_ancestors (ctx : TuiContext) (handle : Nat) : TuiContext :=
  mark_dirty_ancestors_fuel (ctx.nodes.length + 1) ctx handle

/-- `mark_dirty` (tree.rs): sets dirty on the node and every ancestor. -/
def mark_dirty (ctx : TuiContext) (handle : Nat) : TuiContext :=
  let ctx' := { ctx with
    nodes := aupdate ctx.nodes handle (fun n => { n with dirty := true }) }
  mark_dirty_ancestors ctx' handle

/-- The upward walk of `would_create_cycle` (tree.rs), fuelled: `true` iff
the chain of parents starting at the given handle reaches `child`. -/
def would_create_cycle_fuel (ctx : TuiContext) (child : Nat) :
    Nat → Option Nat → Bool
  | _, none => false
  | 0, some _ => false
  | fuel + 1, some handle =>
    if handle = child then true
    else
      would_create_cycle_fuel ctx child fuel
        ((alookup ctx.nodes handle).bind (fun n => n.parent))

/-- `would_create_cycle` (tree.rs). -/
def would_create_cycle (ctx : TuiContext) (parent child : Nat) : Bool :=
  would_create_cycle_fuel ctx child (ctx.nodes.length + 1) (some parent)

/-- `insert_child` (tree.rs), returned as the state at the return point
paired with the error (if any), so that the claim-C5 statement "the
parent/child edges are unchanged in every failure case" is provable rather
than built in.  `sync_taffy_children` and the ScrollBox flex-shrink write
touch only the out-of-scope solver state and are identity on the embedded
state (see the header notes). -/
def insert_child (ctx : TuiContext) (parent child index : Nat) :
    TuiContext × Option String :=
  if parent = child then
    (ctx, some "Tree invariant violation: node cannot be parent of itself")
  else if would_create_cycle ctx parent child then
    (ctx, some ("Tree invariant violation: inserting child "
      ++ toString child ++ " under parent " ++ toString parent
      ++ " would create a cycle"))
  else
    match alookup ctx.nodes parent with
    | none => (ctx, some ("Invalid parent handle: " ++ toString parent))
    | some parent_node =>
      match alookup ctx.nodes child with
      | none => (ctx, some ("Invalid child handle: " ++ toString child))
      | some child_node =>
        let child_parent := child_node.parent
        let parent_children := parent_node.children.erase child
        let insert_index := min index parent_children.length
        let parent_children := parent_children.insertIdx insert_index child
        if parent_node.node_type = NodeType.ScrollBox ∧
            parent_children.length > 1 then
          (ctx, some ("ScrollBox accepts exactly one child. "
            ++ "Wrap multiple widgets in a Box container."))
        else
          let ctx1 :=
            match child_parent with
            | some old_parent =>
              if old_parent ≠ parent then
                let d := { ctx with
                  nodes := aupdate ctx.nodes old_parent (fun p =>
                    { p with children := p.children.filter (· ≠ child) }) }
                mark_dirty_ancestors d old_parent
              else ctx
            | none => ctx
          let ctx2 := { ctx1 with
            nodes := aupdate ctx1.nodes parent (fun p =>
              { p with children := parent_children }) }
          let ctx3 := { ctx2 with
            nodes := aupdate ctx2.nodes child (fun c =>
              { c with parent := some parent }) }
          (mark_dirty_ancestors ctx3 parent, none)

/-- The "detach from parent" block of `destroy_node` (tree.rs): remove the
destroyed handle from its parent's child list and mark the parent chain
dirty (a no-op when the node had no live parent). -/
def destroy_detach_parent (ctx : TuiContext) (node : TuiNode)
    (handle : Nat) : TuiContext :=
  match node.parent with
  | some parent_handle =>
    match alookup ctx.nodes parent_handle with
    | some _ =>
      mark_dirty_ancestors
        { ctx with
            nodes :=
              aupdate ctx.nodes parent_handle (fun p =>
                { p with children := p.children.filter (· ≠ handle) }) }
        parent_handle
    | none => ctx
  | none => ctx

/-- The "orphan children" block of `destroy_node` (tree.rs): unset the
parent link of every child of the destroyed node (children survive). -/
def destroy_orphan_children (ctx : TuiContext) (node : TuiNode) :
    TuiContext :=
  { ctx with
      nodes :=
        node.children.foldl (fun m ch =>
          aupdate m ch (fun c => { c with parent := none })) ctx.nodes }

/-- `destroy_node` (tree.rs): remove the record, detach from the parent
(marking it and its ancestors dirty), orphan the children, clear root and
focus if they pointed at the node; its two middle blocks are the named
stage functions above.  The Taffy node removal is out-of-scope solver
state. -/
def destroy_node (ctx : TuiContext) (handle : Nat) :
    Except String TuiContext :=
  match alookup ctx.nodes handle with
  | none => .error ("Invalid handle: " ++ toString handle)
  | some node =>
    let ctx1 := { ctx with nodes := aerase ctx.nodes handle }
    let ctx2 := destroy_detach_parent ctx1 node handle
    let ctx3 := destroy_orphan_children ctx2 node
    let ctx4 := if ctx3.root = some handle then { ctx3 with root := none }
      else ctx3
    let ctx5 := if ctx4.focused = some handle then
        { ctx4 with focused := none }
      else ctx4
    .ok ctx5

-- ===========================================================================
-- animation.rs — cancellation helpers (used by destroy, claim C6)
-- ===========================================================================

/-- `remove_animation_from_choreography` (animation.rs): drop the animation
from every group's member list and drop groups left empty. -/
def remove_animation_from_choreography (ctx : TuiContext) (anim_id : Nat) :
    TuiContext :=
  let groups := ctx.choreo_groups.map (fun p =>
    (p.1, { p.2 with
      members := p.2.members.filter (fun m => m.anim_id ≠ anim_id) }))
  { ctx with choreo_groups := groups.filter (fun p => p.2.members ≠ []) }

/-- `cancel_all_for_node` (animation.rs): remove every animation targeting
the node, clean the chain map on both sides, prune choreography groups. -/
def cancel_all_for_node (ctx : TuiContext) (handle : Nat) : TuiContext :=
  let cancelled_ids :=
    (ctx.animations.filter (fun a => a.target = handle)).map (fun a => a.id)
  let ctx1 := { ctx with
    animations := ctx.animations.filter (fun a => a.target ≠ handle) }
  let ctx2 := { ctx1 with
    animation_chains :=
      cancelled_ids.foldl (fun m i => aerase m i) ctx1.animation_chains }
  let ctx3 := { ctx2 with
    animation_chains := ctx2.animation_chains.filter (fun p =>
      ¬ cancelled_ids.contains p.2) }
  cancelled_ids.foldl remove_animation_from_choreography ctx3

/-- `tui_destroy_node` (lib.rs): the host-facing destroy — validate, cancel
the node's animations, then destroy the single node. -/
def tui_destroy_node (ctx : TuiContext) (handle : Nat) :
    Except String TuiContext :=
  match ctx.validate_handle handle with
  | .error e => .error e
  | .ok _ => destroy_node (cancel_all_for_node ctx handle) handle

theorem alookup_aerase_self {α : Type} (m : List (Nat × α)) (k : Nat) :
    alookup (aerase m k) k = none := by
  induction m with
  | nil => rfl
  | cons p rest ih =>
    obtain ⟨a, v⟩ := p
    rw [aerase]
    by_cases h : a = k
    · rw [if_pos h]
      exact ih
    · rw [if_neg h, alookup, if_neg h]
      exact ih

theorem alookup_aerase_ne {α : Type} (m : List (Nat × α)) (k k' : Nat)
    (hne : k' ≠ k) : alookup (aerase m k) k' = alookup m k' := by
  induction m with
  | nil => rfl
  | cons p rest ih =>
    obtain ⟨a, v⟩ := p
    rw [aerase]
    by_cases h : a = k
    · have h2 : a ≠ k' := fun hc => hne (by rw [← hc, h])
      rw [if_pos h, alookup, if_neg h2]
      exact ih
    · rw [if_neg h, alookup, alookup]
      by_cases h2 : a = k'
      · rw [if_pos h2, if_pos h2]
      · rw [if_neg h2, if_neg h2]
        exact ih

/-- `mark_dirty_ancestors_fuel` rebuilds only the node table. -/
theorem mark_dirty_ancestors_fuel_eta (f : Nat) :
    ∀ (ctx : TuiContext) (h : Nat),
      mark_dirty_ancestors_fuel f ctx h =
        { ctx with nodes := (mark_dirty_ancestors_fuel f ctx h).nodes } := by
  induction f with
  | zero => intro ctx h; rfl
  | succ n ih =>
    intro ctx h
    rw [mark_dirty_ancestors_fuel]
    cases hl : alookup ctx.nodes h with
    | none => rfl
    | some node =>
      dsimp only
      cases hp : node.parent with
      | none => rfl
      | some parent => exact ih _ parent

/-- `mark_dirty_ancestors_fuel` changes every node record by at most
setting its dirty flag. -/
theorem mark_dirty_ancestors_fuel_lookup (f : Nat) :
    ∀ (ctx : TuiContext) (h k : Nat),
      ∃ b : Bool,
        alookup (mark_dirty_ancestors_fuel f ctx h).nodes k =
          (alookup ctx.nodes k).map
            (fun n => { n with dirty := n.dirty || b }) := by
  induction f with
  | zero =>
    intro ctx h k
    refine ⟨false, ?_⟩
    show alookup ctx.nodes k = _
    cases alookup ctx.nodes k <;> simp
  | succ n ih =>
    intro ctx h k
    rw [mark_dirty_ancestors_fuel]
    cases hl : alookup ctx.nodes h with
    | none =>
      refine ⟨false, ?_⟩
      show alookup ctx.nodes k = _
      cases alookup ctx.nodes k <;> simp
    | some node =>
      dsimp only
      have hstep : ∀ m : List (Nat × TuiNode),
          alookup (aupdate m h (fun n => { n with dirty := true })) k =
            (alookup m k).map
              (fun n => { n with dirty := n.dirty || (decide (k = h)) }) := by
        intro m
        by_cases hk : k = h
        · subst hk
          rw [alookup_aupdate_self]
          cases alookup m k <;> simp
        · rw [alookup_aupdate_ne _ _ _ _ hk]
          simp only [decide_eq_true_eq, hk, decide_eq_false_iff_not,
            Bool.or_false]
          cases alookup m k <;> simp
      cases hp : node.parent with
      | none =>
        exact ⟨decide (k = h), hstep ctx.nodes⟩
      | some parent =>
        obtain ⟨b, hb⟩ := ih
          { ctx with
            nodes := aupdate ctx.nodes h (fun n => { n with dirty := true }) }
          parent k
        refine ⟨decide (k = h) || b, ?_⟩
        rw [hb]
        show Option.map _ (alookup
          (aupdate ctx.nodes h (fun n => { n with dirty := true })) k) = _
        rw [hstep ctx.nodes]
        cases alookup ctx.nodes k <;> simp [Bool.or_assoc]

/-- Folding an idempotent per-key update over a key list: keys in the list
are mapped once, others untouched. -/
theorem alookup_foldl_aupdate {α : Type} (f : α → α)
    (hf : ∀ a, f (f a) = f a) (L : List Nat) :
    ∀ (m : List (Nat × α)) (k : Nat),
      alookup (L.foldl (fun acc ch => aupdate acc ch f) m) k =
        if k ∈ L then (alookup m k).map f else alookup m k := by
  induction L with
  | nil => intro m k; simp
  | cons ch L ih =>
    intro m k
    rw [List.foldl_cons, ih]
    by_cases hmem : k ∈ L
    · rw [if_pos hmem, if_pos (List.mem_cons.mpr (Or.inr hmem))]
      by_cases hk : k = ch
      · subst hk
        rw [alookup_aupdate_self]
        cases alookup m k <;> simp [hf]
      · rw [alookup_aupdate_ne _ _ _ _ hk]
    · rw [if_neg hmem]
      by_cases hk : k = ch
      · subst hk
        rw [if_pos (List.mem_cons.mpr (Or.inl rfl)), alookup_aupdate_self]
      · rw [if_neg (by simp [hk, hmem]), alookup_aupdate_ne _ _ _ _ hk]

theorem getElem?_insertIdx_self_aux {α : Type} (l : List α) (x : α) (n : Nat)
    (hn : n ≤ l.length) : (l.insertIdx n x)[n]? = some x := by
  rw [List.getElem?_eq_getElem (by rw [List.length_insertIdx n _ hn]; omega)]
  rw [List.getElem_insertIdx_self l x n hn]

/-- Claim C5: `insert_child` fails with a cycle error whenever the parent
equals the child or the child is an ancestor of the parent, fails with a
constraint error whenever the parent is a ScrollBox that would end up
holding more than one child, returns the tree untouched in each of those
failure cases, and on success clamps the insertion index to the current
child count and places the child at that position of the parent's child
list. -/
theorem insert_child_spec (ctx : TuiContext) (parent child index : Nat) :
    (parent = child →
      insert_child ctx parent child index =
        (ctx,
         some "Tree invariant violation: node cannot be parent of itself")) ∧
    (parent ≠ child → would_create_cycle ctx parent child = true →
      insert_child ctx parent child index =
        (ctx, some ("Tree invariant violation: inserting child "
          ++ toString child ++ " under parent " ++ toString parent
          ++ " would create a cycle"))) ∧
    (∀ parent_node,
      parent ≠ child → would_create_cycle ctx parent child = false →
      alookup ctx.nodes parent = some parent_node →
      (alookup ctx.nodes child).isSome →
      parent_node.node_type = NodeType.ScrollBox →
      ((parent_node.children.erase child).insertIdx
          (min index (parent_node.children.erase child).length)
          child).length > 1 →
      insert_child ctx parent child index =
        (ctx, some ("ScrollBox accepts exactly one child. "
          ++ "Wrap multiple widgets in a Box container."))) ∧
    (∀ parent_node child_node,
      parent ≠ child → would_create_cycle ctx parent child = false →
      alookup ctx.nodes parent = some parent_node →
      alookup ctx.nodes child = some child_node →
      ¬ (parent_node.node_type = NodeType.ScrollBox ∧
        ((parent_node.children.erase child).insertIdx
            (min index (parent_node.children.erase child).length)
            child).length > 1) →
      ∃ ctx' pn',
        insert_child ctx parent child index = (ctx', none) ∧
        alookup ctx'.nodes parent = some pn' ∧
        pn'.children = (parent_node.children.erase child).insertIdx
          (min index (parent_node.children.erase child).length) child ∧
        min index (parent_node.children.erase child).length ≤
          (parent_node.children.erase child).length ∧
        pn'.children[min index (parent_node.children.erase child).length]? =
          some child) := by
  refine ⟨?_, ?_, ?_, ?_⟩
  · intro he
    rw [insert_child, if_pos he]
  · intro hne hcyc
    rw [insert_child, if_neg hne, if_pos hcyc]
  · intro parent_node hne hcyc hp hc hsb hlen
    obtain ⟨child_node, hcn⟩ := Option.isSome_iff_exists.mp hc
    rw [insert_child, if_neg hne, if_neg (by simp [hcyc]), hp, hcn]
    dsimp only
    rw [if_pos ⟨hsb, hlen⟩]
  · intro parent_node child_node hne hcyc hp hc hok
    have hchne : child ≠ parent := fun hcc => hne (hcc ▸ rfl)
    have key : ∀ (c : TuiContext) (pn1 : TuiNode) (pc : List Nat),
        alookup c.nodes parent = some pn1 →
        ∃ b : Bool,
          alookup (mark_dirty_ancestors
            { c with
                nodes :=
                  aupdate (aupdate c.nodes parent
                      (fun p => { p with children := pc }))
                    child (fun cn => { cn with parent := some parent }) }
            parent).nodes parent =
          some { pn1 with children := pc, dirty := pn1.dirty || b } := by
      intro c pn1 pc h1
      obtain ⟨b, hb⟩ := mark_dirty_ancestors_fuel_lookup
        ((aupdate (aupdate c.nodes parent
            (fun p => { p with children := pc }))
            child (fun cn =>
              { cn with parent := some parent })).length + 1)
        { c with
            nodes :=
              aupdate (aupdate c.nodes parent
                  (fun p => { p with children := pc }))
                child (fun cn => { cn with parent := some parent }) }
        parent parent
      refine ⟨b, ?_⟩
      rw [mark_dirty_ancestors]
      dsimp only
      rw [hb]
      dsimp only
      rw [alookup_aupdate_ne _ _ _ _ hne, alookup_aupdate_self, h1]
      rfl
    set pc := (parent_node.children.erase child).insertIdx
      (min index (parent_node.children.erase child).length) child with hpc
    have hmin : min index (parent_node.children.erase child).length ≤
        (parent_node.children.erase child).length := min_le_right _ _
    have hget : pc[min index (parent_node.children.erase child).length]? =
        some child :=
      getElem?_insertIdx_self_aux _ _ _ hmin
    rw [insert_child, if_neg hne, if_neg (by simp [hcyc]), hp, hc]
    dsimp only
    rw [if_neg hok]
    cases hcp : child_node.parent with
    | none =>
      obtain ⟨b, hb⟩ := key ctx parent_node pc hp
      exact ⟨_, _, rfl, hb, rfl, hmin, hget⟩
    | some old_parent =>
      dsimp only
      by_cases hop : old_parent ≠ parent
      · rw [if_pos hop]
        obtain ⟨b0, hb0⟩ := mark_dirty_ancestors_fuel_lookup
          ((aupdate ctx.nodes old_parent (fun p =>
              { p with
                children := p.children.filter (· ≠ child) })).length + 1)
          { ctx with
              nodes :=
                aupdate ctx.nodes old_parent (fun p =>
                  { p with children := p.children.filter (· ≠ child) }) }
          old_parent parent
        rw [show alookup (aupdate ctx.nodes old_parent (fun p =>
            { p with children := p.children.filter (· ≠ child) })) parent =
            alookup ctx.nodes parent from
          alookup_aupdate_ne _ _ _ _ (fun hq => hop hq.symm), hp] at hb0
        obtain ⟨b, hb⟩ := key _ _ pc hb0
        exact ⟨_, _, rfl, hb, rfl, hmin, hget⟩
      · rw [if_neg hop]
        obtain ⟨b, hb⟩ := key ctx parent_node pc hp
        exact ⟨_, _, rfl, hb, rfl, hmin, hget⟩

def exInsParent : TuiNode := { TuiNode.new .Box with children := [3, 4] }

def exInsChild : TuiNode := TuiNode.new .Text

/-- A Box parent (handle 1) with children `[3, 4]` and a detached Text node
(handle 2) about to be inserted at index 1. -/
def exInsCtx : TuiContext :=
  { exBaseCtx with
      nodes := [(1, exInsParent), (2, exInsChild),
                (3, { TuiNode.new .Text with parent := some 1 }),
                (4, { TuiNode.new .Text with parent := some 1 })]
      next_handle := 5
      root := some 1 }

/-- Witness for claim C5's theorem: inserting node 2 at index 1 under the
concrete Box parent succeeds and places it at position 1. -/
theorem insert_child_spec_witness :
    (1 : Nat) ≠ 2 ∧ would_create_cycle exInsCtx 1 2 = false ∧
    alookup exInsCtx.nodes 1 = some exInsParent ∧
    alookup exInsCtx.nodes 2 = some exInsChild ∧
    ¬ (exInsParent.node_type = NodeType.ScrollBox ∧
      ((exInsParent.children.erase 2).insertIdx
          (min 1 (exInsParent.children.erase 2).length) 2).length > 1) ∧
    (∃ ctx' pn',
      insert_child exInsCtx 1 2 1 = (ctx', none) ∧
      alookup ctx'.nodes 1 = some pn' ∧
      pn'.children = (exInsParent.children.erase 2).insertIdx
        (min 1 (exInsParent.children.erase 2).length) 2 ∧
      min 1 (exInsParent.children.erase 2).length ≤
        (exInsParent.children.erase 2).length ∧
      pn'.children[min 1 (exInsParent.children.erase 2).length]? = some 2) :=
  ⟨by decide, by decide, rfl, rfl, by decide,
   (insert_child_spec exInsCtx 1 2 1).2.2.2 exInsParent exInsChild
     (by decide) (by decide) rfl rfl (by decide)⟩

theorem mark_dirty_ancestors_fuel_start (f : Nat) (ctx : TuiContext)
    (p : Nat) (pn0 : TuiNode) (hp : alookup ctx.nodes p = some pn0) :
    alookup (mark_dirty_ancestors_fuel (f + 1) ctx p).nodes p =
      some { pn0 with dirty := true } := by
  rw [mark_dirty_ancestors_fuel, hp]
  dsimp only
  cases hpar : pn0.parent with
  | none =>
    rw [alookup_aupdate_self, hp]
    simp [hpar]
  | some par =>
    obtain ⟨b, hb⟩ := mark_dirty_ancestors_fuel_lookup f
      { ctx with
          nodes := aupdate ctx.nodes p (fun n => { n with dirty := true }) }
      par p
    rw [hb]
    dsimp only
    rw [alookup_aupdate_self, hp]
    simp [hpar]

theorem mark_dirty_ancestors_eta (ctx : TuiContext) (h : Nat) :
    mark_dirty_ancestors ctx h =
      { ctx with nodes := (mark_dirty_ancestors ctx h).nodes } :=
  mark_dirty_ancestors_fuel_eta _ ctx h

theorem mark_dirty_ancestors_lookup (ctx : TuiContext) (h k : Nat) :
    ∃ b : Bool,
      alookup (mark_dirty_ancestors ctx h).nodes k =
        (alookup ctx.nodes k).map
          (fun n => { n with dirty := n.dirty || b }) :=
  mark_dirty_ancestors_fuel_lookup _ ctx h k

theorem mark_dirty_ancestors_start (ctx : TuiContext) (p : Nat)
    (pn0 : TuiNode) (hp : alookup ctx.nodes p = some pn0) :
    alookup (mark_dirty_ancestors ctx p).nodes p =
      some { pn0 with dirty := true } :=
  mark_dirty_ancestors_fuel_start _ ctx p pn0 hp

theorem destroy_detach_parent_eta (ctx : TuiContext) (node : TuiNode)
    (handle : Nat) :
    destroy_detach_parent ctx node handle =
      { ctx with nodes := (destroy_detach_parent ctx node handle).nodes } := by
  rw [destroy_detach_parent]
  cases node.parent with
  | none => rfl
  | some p =>
    dsimp only
    cases alookup ctx.nodes p with
    | none => rfl
    | some q =>
      dsimp only
      exact mark_dirty_ancestors_eta _ _

theorem destroy_detach_parent_root (ctx : TuiContext) (node : TuiNode)
    (handle : Nat) :
    (destroy_detach_parent ctx node handle).root = ctx.root := by
  rw [destroy_detach_parent_eta]

theorem destroy_detach_parent_focused (ctx : TuiContext) (node : TuiNode)
    (handle : Nat) :
    (destroy_detach_parent ctx node handle).focused = ctx.focused := by
  rw [destroy_detach_parent_eta]

theorem destroy_detach_parent_animations (ctx : TuiContext) (node : TuiNode)
    (handle : Nat) :
    (destroy_detach_parent ctx node handle).animations = ctx.animations := by
  rw [destroy_detach_parent_eta]

theorem destroy_detach_parent_isSome (ctx : TuiContext) (node : TuiNode)
    (handle k : Nat) :
    (alookup (destroy_detach_parent ctx node handle).nodes k).isSome =
      (alookup ctx.nodes k).isSome := by
  rw [destroy_detach_parent]
  cases node.parent with
  | none => rfl
  | some p =>
    dsimp only
    cases hlp : alookup ctx.nodes p with
    | none => rfl
    | some q =>
      dsimp only
      obtain ⟨b, hb⟩ := mark_dirty_ancestors_lookup
        { ctx with
            nodes := aupdate ctx.nodes p (fun q =>
              { q with children := q.children.filter (· ≠ handle) }) }
        p k
      rw [hb]
      dsimp only
      by_cases hk : k = p
      · subst hk
        rw [alookup_aupdate_self]
        cases alookup ctx.nodes k <;> rfl
      · rw [alookup_aupdate_ne _ _ _ _ hk]
        cases alookup ctx.nodes k <;> rfl

theorem destroy_detach_parent_hit (ctx : TuiContext) (node : TuiNode)
    (handle p : Nat) (pn0 : TuiNode) (hpar : node.parent = some p)
    (hp : alookup ctx.nodes p = some pn0) :
    alookup (destroy_detach_parent ctx node handle).nodes p =
      some { pn0 with
        children := pn0.children.filter (· ≠ handle), dirty := true } := by
  rw [destroy_detach_parent, hpar]
  dsimp only
  rw [hp]
  dsimp only
  have hD : alookup
      (aupdate ctx.nodes p (fun q =>
        { q with children := q.children.filter (· ≠ handle) })) p =
      some { pn0 with children := pn0.children.filter (· ≠ handle) } := by
    rw [alookup_aupdate_self, hp]
    rfl
  exact mark_dirty_ancestors_start
    { ctx with
        nodes := aupdate ctx.nodes p (fun q =>
          { q with children := q.children.filter (· ≠ handle) }) }
    p _ hD

theorem destroy_orphan_children_lookup (ctx : TuiContext) (node : TuiNode)
    (k : Nat) :
    alookup (destroy_orphan_children ctx node).nodes k =
      if k ∈ node.children then
        (alookup ctx.nodes k).map (fun c => { c with parent := none })
      else alookup ctx.nodes k := by
  rw [destroy_orphan_children]
  exact alookup_foldl_aupdate (fun c => { c with parent := none })
    (fun a => rfl) node.children ctx.nodes k

theorem foldl_rac_fields (L : List Nat) :
    ∀ ctx : TuiContext,
      (L.foldl remove_animation_from_choreography ctx).nodes = ctx.nodes ∧
      (L.foldl remove_animation_from_choreography ctx).root = ctx.root ∧
      (L.foldl remove_animation_from_choreography ctx).focused =
        ctx.focused ∧
      (L.foldl remove_animation_from_choreography ctx).animations =
        ctx.animations := by
  induction L with
  | nil => intro ctx; exact ⟨rfl, rfl, rfl, rfl⟩
  | cons i L ih =>
    intro ctx
    rw [List.foldl_cons]
    exact ⟨(ih _).1, (ih _).2.1, (ih _).2.2.1, (ih _).2.2.2⟩

theorem cancel_all_for_node_fields (ctx : TuiContext) (h : Nat) :
    (cancel_all_for_node ctx h).nodes = ctx.nodes ∧
    (cancel_all_for_node ctx h).root = ctx.root ∧
    (cancel_all_for_node ctx h).focused = ctx.focused ∧
    (cancel_all_for_node ctx h).animations =
      ctx.animations.filter (fun a => a.target ≠ h) := by
  refine ⟨?_, ?_, ?_, ?_⟩
  · exact (foldl_rac_fields _ _).1
  · exact (foldl_rac_fields _ _).2.1
  · exact (foldl_rac_fields _ _).2.2.1
  · exact (foldl_rac_fields _ _).2.2.2

/-- Claim C6: after `destroy(h)` of a single node (the host-facing
`tui_destroy_node`), the node's record is gone, it is removed from its
parent's child list and that parent is marked dirty, its children survive
with their parent links unset, root and focus are cleared exactly when they
pointed at the node, and no animation targeting the node remains. -/
theorem destroy_node_cleanup (ctx : TuiContext) (h : Nat) (node : TuiNode)
    (hne0 : h ≠ 0) (hnode : alookup ctx.nodes h = some node) :
    ∃ ctx',
      tui_destroy_node ctx h = .ok ctx' ∧
      alookup ctx'.nodes h = none ∧
      (∀ p pn', node.parent = some p → alookup ctx'.nodes p = some pn' →
        h ∉ pn'.children ∧ pn'.dirty = true) ∧
      (∀ c, c ∈ node.children → c ≠ h →
        ((alookup ctx'.nodes c).isSome ↔ (alookup ctx.nodes c).isSome) ∧
        ∀ cn', alookup ctx'.nodes c = some cn' → cn'.parent = none) ∧
      ctx'.root = (if ctx.root = some h then none else ctx.root) ∧
      ctx'.focused = (if ctx.focused = some h then none else ctx.focused) ∧
      (∀ a ∈ ctx'.animations, a.target ≠ h) := by
  obtain ⟨hcn, hcr, hcf, hca⟩ := cancel_all_for_node_fields ctx h
  set C := cancel_all_for_node ctx h with hCdef
  have hC : alookup C.nodes h = some node := by rw [hcn]; exact hnode
  have hv : ctx.validate_handle h = Except.ok () := by
    rw [TuiContext.validate_handle, if_neg hne0, hnode]
    rfl
  rw [tui_destroy_node, hv]
  dsimp only
  rw [← hCdef, destroy_node, hC]
  dsimp only
  have h1none :
      alookup ({ C with nodes := aerase C.nodes h } : TuiContext).nodes h =
        none := alookup_aerase_self _ _
  have h2some : ∀ k,
      (alookup (destroy_detach_parent { C with nodes := aerase C.nodes h }
        node h).nodes k).isSome =
      (alookup (aerase C.nodes h) k).isSome :=
    fun k => destroy_detach_parent_isSome _ node h k
  have h2none :
      alookup (destroy_detach_parent { C with nodes := aerase C.nodes h }
        node h).nodes h = none := by
    have := h2some h
    rw [alookup_aerase_self] at this
    cases hx : alookup (destroy_detach_parent
        { C with nodes := aerase C.nodes h } node h).nodes h with
    | none => rfl
    | some v => rw [hx] at this; simp at this
  have hr3 : (destroy_orphan_children (destroy_detach_parent
      { C with nodes := aerase C.nodes h } node h) node).root = ctx.root := by
    show (destroy_detach_parent { C with nodes := aerase C.nodes h }
      node h).root = ctx.root
    rw [destroy_detach_parent_root]
    exact hcr
  have hf3 : (destroy_orphan_children (destroy_detach_parent
      { C with nodes := aerase C.nodes h } node h) node).focused =
      ctx.focused := by
    show (destroy_detach_parent { C with nodes := aerase C.nodes h }
      node h).focused = ctx.focused
    rw [destroy_detach_parent_focused]
    exact hcf
  have ha3 : (destroy_orphan_children (destroy_detach_parent
      { C with nodes := aerase C.nodes h } node h) node).animations =
      ctx.animations.filter (fun a => a.target ≠ h) := by
    show (destroy_detach_parent { C with nodes := aerase C.nodes h }
      node h).animations = _
    rw [destroy_detach_parent_animations]
    exact hca
  refine ⟨_, rfl, ?_, ?_, ?_, ?_, ?_, ?_⟩
  · -- the destroyed record is gone
    simp only [apply_ite TuiContext.nodes, ite_self]
    rw [destroy_orphan_children_lookup, h2none]
    split <;> rfl
  · -- detached from the parent, which is dirty
    intro p pn' hpar hp'
    simp only [apply_ite TuiContext.nodes, ite_self] at hp'
    rw [destroy_orphan_children_lookup] at hp'
    cases hlp : alookup ({ C with nodes := aerase C.nodes h } :
        TuiContext).nodes p with
    | none =>
      have hdn : alookup (destroy_detach_parent
          { C with nodes := aerase C.nodes h } node h).nodes p = none := by
        have := h2some p
        rw [hlp] at this
        cases hx : alookup (destroy_detach_parent
            { C with nodes := aerase C.nodes h } node h).nodes p with
        | none => rfl
        | some v => rw [hx] at this; simp at this
      rw [hdn] at hp'
      by_cases hm : p ∈ node.children
      · rw [if_pos hm] at hp'; simp at hp'
      · rw [if_neg hm] at hp'; simp at hp'
    | some pn0 =>
      have hdet := destroy_detach_parent_hit
        { C with nodes := aerase C.nodes h } node h p pn0 hpar hlp
      rw [hdet] at hp'
      by_cases hm : p ∈ node.children
      · rw [if_pos hm] at hp'
        simp only [Option.map_some'] at hp'
        injection hp' with hp'
        subst hp'
        refine ⟨?_, rfl⟩
        simp [List.mem_filter]
      · rw [if_neg hm] at hp'
        injection hp' with hp'
        subst hp'
        refine ⟨?_, rfl⟩
        simp [List.mem_filter]
  · -- children survive, orphaned
    intro c hcmem hch
    have hlc : alookup ({ C with nodes := aerase C.nodes h } :
        TuiContext).nodes c = alookup ctx.nodes c := by
      show alookup (aerase C.nodes h) c = _
      rw [alookup_aerase_ne _ _ _ hch, hcn]
    constructor
    · simp only [apply_ite TuiContext.nodes, ite_self]
      rw [destroy_orphan_children_lookup, if_pos hcmem]
      have hs := h2some c
      rw [show alookup (aerase C.nodes h) c = alookup ctx.nodes c by
        rw [alookup_aerase_ne _ _ _ hch, hcn]] at hs
      have hmap : (Option.map (fun c => { c with parent := none })
          (alookup (destroy_detach_parent
            { C with nodes := aerase C.nodes h } node h).nodes c)).isSome =
          (alookup (destroy_detach_parent
            { C with nodes := aerase C.nodes h } node h).nodes c).isSome := by
        cases alookup (destroy_detach_parent
          { C with nodes := aerase C.nodes h } node h).nodes c <;> rfl
      rw [hmap, hs]
    · intro cn' hcn'
      simp only [apply_ite TuiContext.nodes, ite_self] at hcn'
      rw [destroy_orphan_children_lookup, if_pos hcmem] at hcn'
      cases hx : alookup (destroy_detach_parent
          { C with nodes := aerase C.nodes h } node h).nodes c with
      | none => rw [hx] at hcn'; simp at hcn'
      | some v =>
        rw [hx] at hcn'
        simp only [Option.map_some'] at hcn'
        injection hcn' with hcn'
        subst hcn'
        rfl
  · -- root cleared iff it pointed at the node
    simp only [apply_ite TuiContext.root, ite_self]
    rw [hr3]
  · -- focus cleared iff it pointed at the node
    simp only [apply_ite TuiContext.focused, ite_self]
    rw [hf3]
  · -- no animation targets the node
    intro a ha
    simp only [apply_ite TuiContext.animations, ite_self] at ha
    rw [ha3] at ha
    simp only [List.mem_filter, decide_eq_true_eq] at ha
    exact ha.2

def exAnim2 : Animation :=
  { id := 1
    target := 2
    property := .Opacity
    start_bits := 1
    end_bits := 0
    duration_ms := 500
    elapsed_ms := 0
    easing := .Linear
    looping := false
    pending := false
    spinner := none }

def exDestNode : TuiNode :=
  { TuiNode.new .Box with parent := some 1, children := [3] }

/-- Handle 2 (a Box with parent 1 and child 3) is focused, animated, and
about to be destroyed. -/
def exDestCtx : TuiContext :=
  { exBaseCtx with
      nodes := [(1, { TuiNode.new .Box with children := [2] }),
                (2, exDestNode),
                (3, { TuiNode.new .Text with parent := some 2 })]
      next_handle := 4
      root := some 1
      focused := some 2
      animations := [exAnim2] }

/-- Witness for claim C6's theorem: destroying the concrete node 2 removes
its record, detaches it from node 1, orphans node 3, clears focus, and
drops its animation. -/
theorem destroy_node_cleanup_witness :
    (2 : Nat) ≠ 0 ∧ alookup exDestCtx.nodes 2 = some exDestNode ∧
    (∃ ctx',
      tui_destroy_node exDestCtx 2 = .ok ctx' ∧
      alookup ctx'.nodes 2 = none ∧
      (∀ p pn', exDestNode.parent = some p →
        alookup ctx'.nodes p = some pn' →
        2 ∉ pn'.children ∧ pn'.dirty = true) ∧
      (∀ c, c ∈ exDestNode.children → c ≠ 2 →
        ((alookup ctx'.nodes c).isSome ↔
          (alookup exDestCtx.nodes c).isSome) ∧
        ∀ cn', alookup ctx'.nodes c = some cn' → cn'.parent = none) ∧
      ctx'.root =
        (if exDestCtx.root = some 2 then none else exDestCtx.root) ∧
      ctx'.focused =
        (if exDestCtx.focused = some 2 then none else exDestCtx.focused) ∧
      (∀ a ∈ ctx'.animations, a.target ≠ 2)) :=
  ⟨by decide, rfl, destroy_node_cleanup exDestCtx 2 exDestNode (by decide) rfl⟩

-- ===========================================================================
-- event.rs — focus traversal (claim C7)
-- ===========================================================================

/-- `collect_focusable_recursive` (event.rs), fuelled (depth of a forest is
bounded by the node count): pre-order, visible-only, pushes focusable
handles, then recurses into the children in order. -/
def collect_focusable_recursive (ctx : TuiContext) :
    Nat → Nat → List Nat → List Nat
  | 0, _, result => result
  | fuel + 1, handle, result =>
    match alookup ctx.nodes handle with
    | none => result
    | some node =>
      if ¬ node.visible then result
      else
        let result := if node.focusable then result ++ [handle] else result
        node.children.foldl (fun acc child =>
          collect_focusable_recursive ctx fuel child acc) result

/-- `collect_focusable_order` (event.rs). -/
def collect_focusable_order (ctx : TuiContext) : List Nat :=
  match ctx.root with
  | some root => collect_focusable_recursive ctx (ctx.nodes.length + 1) root []
  | none => []

/-- Rust `Iterator::position` on a handle list. -/
def position (l : List Nat) (x : Nat) : Option Nat :=
  match l with
  | [] => none
  | y :: rest => if y = x then some 0 else (position rest x).map (· + 1)

/-- `focus_next` (event.rs): step to the successor of the current focus in
the focusable order (first element from unset or unknown focus), wrapping,
and emit a FocusChange event. -/
def focus_next (ctx : TuiContext) : TuiContext :=
  let focusable_order := collect_focusable_order ctx
  if focusable_order.isEmpty then ctx
  else
    let old_focus := ctx.focused.getD 0
    let current_idx :=
      ((position focusable_order old_focus).map (· + 1)).getD 0
    let new_focus :=
      focusable_order.getD (current_idx % focusable_order.length) 0
    { ctx with
        focused := some new_focus
        event_buffer := ctx.event_buffer ++
          [TuiEvent.focus_change old_focus new_focus] }

/-- `focus_prev` (event.rs): step to the predecessor, wrapping from the
first to the last. -/
def focus_prev (ctx : TuiContext) : TuiContext :=
  let focusable_order := collect_focusable_order ctx
  if focusable_order.isEmpty then ctx
  else
    let old_focus := ctx.focused.getD 0
    let current_idx := (position focusable_order old_focus).getD 0
    let new_idx :=
      if current_idx = 0 then focusable_order.length - 1
      else current_idx - 1
    let new_focus := focusable_order.getD new_idx 0
    { ctx with
        focused := some new_focus
        event_buffer := ctx.event_buffer ++
          [TuiEvent.focus_change old_focus new_focus] }

theorem collect_focusable_recursive_congr (ctx ctx' : TuiContext)
    (hn : ctx'.nodes = ctx.nodes) :
    ∀ fuel h acc,
      collect_focusable_recursive ctx' fuel h acc =
        collect_focusable_recursive ctx fuel h acc := by
  intro fuel
  induction fuel with
  | zero => intro h acc; rfl
  | succ n ih =>
    intro h acc
    rw [collect_focusable_recursive, collect_focusable_recursive, hn]
    cases alookup ctx.nodes h with
    | none => rfl
    | some node =>
      dsimp only
      have hfold : ∀ (L : List Nat) (acc : List Nat),
          L.foldl (fun acc child =>
            collect_focusable_recursive ctx' n child acc) acc =
          L.foldl (fun acc child =>
            collect_focusable_recursive ctx n child acc) acc := by
        intro L
        induction L with
        | nil => intro acc; rfl
        | cons c L ihL =>
          intro acc
          rw [List.foldl_cons, List.foldl_cons, ih c acc]
          exact ihL _
      split_ifs <;> first | rfl | exact hfold _ _

theorem collect_focusable_order_congr (ctx ctx' : TuiContext)
    (hn : ctx'.nodes = ctx.nodes) (hr : ctx'.root = ctx.root) :
    collect_focusable_order ctx' = collect_focusable_order ctx := by
  rw [collect_focusable_order, collect_focusable_order, hr, hn]
  cases ctx.root with
  | none => rfl
  | some root => exact collect_focusable_recursive_congr ctx ctx' hn _ _ _

theorem position_not_mem (l : List Nat) (x : Nat) (hx : x ∉ l) :
    position l x = none := by
  induction l with
  | nil => rfl
  | cons y rest ih =>
    rw [position]
    rw [if_neg (fun hy => hx (by rw [← hy]; exact List.mem_cons_self y rest))]
    rw [ih (fun hm => hx (List.mem_cons.mpr (Or.inr hm)))]
    rfl

theorem position_get (l : List Nat) (hnd : l.Nodup) (i : Nat)
    (hi : i < l.length) : position l (l.get ⟨i, hi⟩) = some i := by
  induction l generalizing i with
  | nil => simp at hi
  | cons y rest ih =>
    cases i with
    | zero => rw [position]; simp
    | succ j =>
      have hj : j < rest.length := by simpa using hi
      have hget : (y :: rest).get ⟨j + 1, hi⟩ = rest.get ⟨j, hj⟩ := rfl
      rw [hget, position]
      have hyne : y ≠ rest.get ⟨j, hj⟩ := by
        intro hy
        exact (List.nodup_cons.mp hnd).1
          (by rw [hy]; exact List.get_mem rest j hj)
      rw [if_neg hyne, ih (List.nodup_cons.mp hnd).2 j hj]
      rfl

theorem getD_eq_get (l : List Nat) (i : Nat) (d : Nat) (h : i < l.length) :
    l.getD i d = l.get ⟨i, h⟩ := by
  induction l generalizing i with
  | nil => simp at h
  | cons y rest ih =>
    cases i with
    | zero => rfl
    | succ j => exact ih j (by simpa using h)

theorem isEmpty_false_of_lt (l : List Nat) (h : 0 < l.length) :
    l.isEmpty = false := by
  cases l with
  | nil => simp at h
  | cons y rest => rfl

theorem get_congr (l : List Nat) (i j : Nat) (hi : i < l.length)
    (hj : j < l.length) (hij : i = j) : l.get ⟨i, hi⟩ = l.get ⟨j, hj⟩ := by
  subst hij
  rfl

theorem focus_next_step (ctx : TuiContext) (order : List Nat)
    (hord : order = collect_focusable_order ctx) (hnd : order.Nodup)
    (i : Nat) (hi : i < order.length)
    (hf : ctx.focused = some (order.get ⟨i, hi⟩)) :
    (focus_next ctx).focused =
      some (order.get ⟨(i + 1) % order.length,
        Nat.mod_lt _ (Nat.lt_of_le_of_lt (Nat.zero_le i) hi)⟩) ∧
    (focus_next ctx).nodes = ctx.nodes ∧
    (focus_next ctx).root = ctx.root := by
  have hlen : 0 < order.length := Nat.lt_of_le_of_lt (Nat.zero_le i) hi
  rw [focus_next, ← hord]
  rw [isEmpty_false_of_lt order hlen]
  rw [if_neg (by simp)]
  dsimp only
  rw [hf]
  simp only [Option.getD_some]
  rw [position_get order hnd i hi]
  simp only [Option.map_some', Option.getD_some]
  rw [getD_eq_get order ((i + 1) % order.length) 0 (Nat.mod_lt _ hlen)]
  exact ⟨rfl, trivial, trivial⟩

theorem focus_prev_step (ctx : TuiContext) (order : List Nat)
    (hord : order = collect_focusable_order ctx) (hnd : order.Nodup)
    (i : Nat) (hi : i < order.length)
    (hf : ctx.focused = some (order.get ⟨i, hi⟩)) :
    (focus_prev ctx).focused =
      some (order.get ⟨(if i = 0 then order.length - 1 else i - 1),
        by split <;> omega⟩) ∧
    (focus_prev ctx).nodes = ctx.nodes ∧
    (focus_prev ctx).root = ctx.root := by
  have hlen : 0 < order.length := Nat.lt_of_le_of_lt (Nat.zero_le i) hi
  rw [focus_prev, ← hord]
  rw [isEmpty_false_of_lt order hlen]
  rw [if_neg (by simp)]
  dsimp only
  rw [hf]
  simp only [Option.getD_some]
  rw [position_get order hnd i hi]
  simp only [Option.getD_some]
  rw [getD_eq_get order (if i = 0 then order.length - 1 else i - 1) 0
    (by split <;> omega)]
  exact ⟨rfl, trivial, trivial⟩

theorem focus_next_iterate (m : Nat) :
    ∀ (ctx : TuiContext) (order : List Nat),
      order = collect_focusable_order ctx → order.Nodup →
      ∀ (i : Nat) (hi : i < order.length),
        ctx.focused = some (order.get ⟨i, hi⟩) →
        (focus_next^[m] ctx).focused =
          some (order.get ⟨(i + m) % order.length,
            Nat.mod_lt _ (Nat.lt_of_le_of_lt (Nat.zero_le i) hi)⟩) := by
  induction m with
  | zero =>
    intro ctx order hord hnd i hi hf
    simp only [Function.iterate_zero, id]
    rw [hf]
    exact congrArg some
      (get_congr order i ((i + 0) % order.length) hi _
        (by rw [Nat.add_zero, Nat.mod_eq_of_lt hi]))
  | succ n ih =>
    intro ctx order hord hnd i hi hf
    rw [Function.iterate_succ_apply]
    obtain ⟨h1, h2, h3⟩ := focus_next_step ctx order hord hnd i hi hf
    have hord' : order = collect_focusable_order (focus_next ctx) := by
      rw [collect_focusable_order_congr ctx (focus_next ctx) h2 h3]
      exact hord
    have hlen : 0 < order.length := Nat.lt_of_le_of_lt (Nat.zero_le i) hi
    have := ih (focus_next ctx) order hord' hnd ((i + 1) % order.length)
      (Nat.mod_lt _ hlen) h1
    rw [this]
    exact congrArg some
      (get_congr order _ _ _ _
        (by rw [Nat.mod_add_mod]; congr 1; omega))

theorem head?_eq_get (l : List Nat) (h : 0 < l.length) :
    l.head? = some (l.get ⟨0, h⟩) := by
  cases l with
  | nil => simp at h
  | cons y rest => rfl

/-- Claim C7: with `k ≥ 1` visible focusable nodes collected in depth-first
pre-order, `k` applications of `focus_next` from any focused state in that
order return to the start, `focus_prev` is the exact inverse of
`focus_next` on focused states, `focus_next` from unset focus lands on the
first focusable node, and `focus_next` from the last wraps to the first. -/
theorem focus_traversal_cycle (ctx : TuiContext) (order : List Nat)
    (hord : order = collect_focusable_order ctx) (hnd : order.Nodup)
    (hlen : 0 < order.length) (h0 : 0 ∉ order) :
    (∀ f, ctx.focused = some f → f ∈ order →
      (focus_next^[order.length] ctx).focused = some f) ∧
    (∀ f, ctx.focused = some f → f ∈ order →
      (focus_prev (focus_next ctx)).focused = some f ∧
      (focus_next (focus_prev ctx)).focused = some f) ∧
    (ctx.focused = none → (focus_next ctx).focused = order.head?) ∧
    (∀ hne : order ≠ [], ctx.focused = some (order.getLast hne) →
      (focus_next ctx).focused = order.head?) := by
  refine ⟨?_, ?_, ?_, ?_⟩
  · intro f hf hmem
    obtain ⟨⟨i, hi⟩, hget⟩ := List.mem_iff_get.mp hmem
    have := focus_next_iterate order.length ctx order hord hnd i hi
      (by rw [hf, hget])
    rw [this, ← hget]
    exact congrArg some
      (get_congr order _ _ _ _ (by rw [Nat.add_mod_right, Nat.mod_eq_of_lt hi]))
  · intro f hf hmem
    obtain ⟨⟨i, hi⟩, hget⟩ := List.mem_iff_get.mp hmem
    constructor
    · obtain ⟨h1, h2, h3⟩ := focus_next_step ctx order hord hnd i hi
        (by rw [hf, hget])
      have hord' : order = collect_focusable_order (focus_next ctx) := by
        rw [collect_focusable_order_congr ctx (focus_next ctx) h2 h3]
        exact hord
      obtain ⟨h4, _, _⟩ := focus_prev_step (focus_next ctx) order hord' hnd
        ((i + 1) % order.length) (Nat.mod_lt _ hlen) h1
      rw [h4, ← hget]
      refine congrArg some (get_congr order _ _ _ _ ?_)
      by_cases hc : i + 1 = order.length
      · rw [hc, Nat.mod_self, if_pos rfl]
        omega
      · rw [Nat.mod_eq_of_lt (by omega), if_neg (by omega)]
        omega
    · obtain ⟨h1, h2, h3⟩ := focus_prev_step ctx order hord hnd i hi
        (by rw [hf, hget])
      have hord' : order = collect_focusable_order (focus_prev ctx) := by
        rw [collect_focusable_order_congr ctx (focus_prev ctx) h2 h3]
        exact hord
      obtain ⟨h4, _, _⟩ := focus_next_step (focus_prev ctx) order hord' hnd
        (if i = 0 then order.length - 1 else i - 1) (by split <;> omega) h1
      rw [h4, ← hget]
      refine congrArg some (get_congr order _ _ _ _ ?_)
      by_cases hc : i = 0
      · rw [if_pos hc]
        rw [show order.length - 1 + 1 = order.length by omega, Nat.mod_self,
          hc]
      · rw [if_neg hc]
        rw [show i - 1 + 1 = i by omega, Nat.mod_eq_of_lt hi]
  · intro hf
    rw [focus_next, ← hord]
    rw [isEmpty_false_of_lt order hlen]
    rw [if_neg (by simp)]
    dsimp only
    rw [hf]
    simp only [Option.getD_none]
    rw [position_not_mem order 0 h0]
    simp only [Option.map_none', Option.getD_none]
    rw [Nat.zero_mod, getD_eq_get order 0 0 hlen, head?_eq_get order hlen]
  · intro hne hf
    have hil : order.length - 1 < order.length := by omega
    have hlast : order.getLast hne = order.get ⟨order.length - 1, hil⟩ := by
      rw [List.getLast_eq_getElem]
      rfl
    obtain ⟨h1, _, _⟩ := focus_next_step ctx order hord hnd
      (order.length - 1) hil (by rw [hf, hlast])
    rw [h1, head?_eq_get order hlen]
    refine congrArg some (get_congr order _ _ _ _ ?_)
    rw [show order.length - 1 + 1 = order.length by omega, Nat.mod_self]

/-- Root Box (handle 1) with two Input children (handles 2 and 3), nothing
focused — the S7 scenario. -/
def exFocusCtx : TuiContext :=
  { exBaseCtx with
      nodes := [(1, { TuiNode.new .Box with children := [2, 3] }),
                (2, { TuiNode.new .Input with parent := some 1 }),
                (3, { TuiNode.new .Input with parent := some 1 })]
      next_handle := 4
      root := some 1 }

/-- Witness for claim C7's theorem: on the concrete two-Input tree,
`focus_next` from unset focus lands on the first focusable node. -/
theorem focus_traversal_cycle_witness :
    ([2, 3] : List Nat) = collect_focusable_order exFocusCtx ∧
    (focus_next exFocusCtx).focused = ([2, 3] : List Nat).head? :=
  ⟨by decide,
   (focus_traversal_cycle exFocusCtx [2, 3] (by decide) (by decide)
      (by decide) (by decide)).2.2.1 rfl⟩

-- ===========================================================================
-- animation.rs — easing, interpolation, lifecycle (claims C3, C4)
-- ===========================================================================

/-- Rust `f32::clamp`. -/
def qclamp (v lo hi : ℚ) : ℚ := if v < lo then lo else if v > hi then hi else v

/-- `apply_easing` (animation.rs).  The `Elastic` branch off its endpoints
computes `-(2^(10t-10)) * sin((10t - 10.75) * 2π/3)`, a transcendental with
no exact rational counterpart; its value is taken from the `elastic` oracle
parameter threaded through the engine (no claim below evaluates it). -/
def apply_easing (elastic : ℚ → ℚ) (easing : Easing) (t : ℚ) : ℚ :=
  match easing with
  | .Linear => t
  | .EaseIn => t * t
  | .EaseOut => 1 - (1 - t) * (1 - t)
  | .EaseInOut =>
    if t < 1 / 2 then 2 * t * t else 1 - (-2 * t + 2) ^ 2 / 2
  | .CubicIn => t * t * t
  | .CubicOut => 1 - (1 - t) ^ 3
  | .Elastic => if t ≤ 0 ∨ t ≥ 1 then t else elastic t
  | .Bounce =>
    let n1 : ℚ := 7.5625
    let d1 : ℚ := 2.75
    if t < 1 / d1 then n1 * t * t
    else if t < 2 / d1 then
      let x := t - 1.5 / d1
      n1 * x * x + 0.75
    else if t < 2.5 / d1 then
      let x := t - 2.25 / d1
      n1 * x * x + 0.9375
    else
      let x := t - 2.625 / d1
      n1 * x * x + 0.984375

/-- `interpolate_f32` (animation.rs): `start + (end - start) * alpha` over
the denoted f32 values. -/
def interpolate_f32 (start_bits end_bits alpha : ℚ) : ℚ :=
  start_bits + (end_bits - start_bits) * alpha

/-- The u32 color word denoted by an (integral, by invariant) ℚ bits value. -/
def colorNat (q : ℚ) : Nat := ⌊q⌋.toNat % 2 ^ 32

/-- One channel of `interpolate_color` (animation.rs): f32 `round()` (half
away from zero; identical to `round` here after the `as u32` saturation at
zero), the saturating `as u32` cast, and `.min(255)`. -/
def lerp_channel (s e : Nat) (alpha : ℚ) : Nat :=
  (round ((s : ℚ) + ((e : ℚ) - (s : ℚ)) * alpha)).toNat.min 255

/-- `interpolate_color` (animation.rs): per-channel lerp when both words
carry the RGB tag `0x01`; otherwise snap to the end value at `alpha ≥ 1`. -/
def interpolate_color (start_bits end_bits alpha : ℚ) : ℚ :=
  let s := colorNat start_bits
  let e := colorNat end_bits
  if color_tag s = 0x01 ∧ color_tag e = 0x01 then
    let r := lerp_channel ((s >>> 16) % 256) ((e >>> 16) % 256) alpha
    let g := lerp_channel ((s >>> 8) % 256) ((e >>> 8) % 256) alpha
    let b := lerp_channel (s % 256) (e % 256) alpha
    ((0x01000000 + r * 65536 + g * 256 + b : Nat) : ℚ)
  else if alpha ≥ 1 then end_bits
  else start_bits

/-- `interpolate` (animation.rs): dispatch on the property's value type. -/
def interpolate (property : AnimProp) (start_bits end_bits alpha : ℚ) : ℚ :=
  match property with
  | .Opacity | .PositionX | .PositionY =>
    interpolate_f32 start_bits end_bits alpha
  | .FgColor | .BgColor | .BorderColor =>
    interpolate_color start_bits end_bits alpha

/-- `read_property` (animation.rs). -/
def read_property (node : TuiNode) (property : AnimProp) : ℚ :=
  match property with
  | .Opacity => node.visual_style.opacity
  | .FgColor => node.visual_style.fg_color
  | .BgColor => node.visual_style.bg_color
  | .BorderColor => node.visual_style.border_color
  | .PositionX => node.render_offset.1
  | .PositionY => node.render_offset.2

/-- `write_property` (animation.rs): store the value (opacity clamped to
`[0, 1]`) and set the style-mask bit; positions go to the render offset. -/
def write_property (node : TuiNode) (property : AnimProp) (bits : ℚ) :
    TuiNode :=
  match property with
  | .Opacity =>
    { node with visual_style := { node.visual_style with
        opacity := qclamp bits 0 1
        style_mask := node.visual_style.style_mask ||| VisualStyle.MASK_OPACITY } }
  | .FgColor =>
    { node with visual_style := { node.visual_style with
        fg_color := bits
        style_mask :=
          node.visual_style.style_mask ||| VisualStyle.MASK_FG_COLOR } }
  | .BgColor =>
    { node with visual_style := { node.visual_style with
        bg_color := bits
        style_mask :=
          node.visual_style.style_mask ||| VisualStyle.MASK_BG_COLOR } }
  | .BorderColor =>
    { node with visual_style := { node.visual_style with
        border_color := bits
        style_mask :=
          node.visual_style.style_mask ||| VisualStyle.MASK_BORDER_COLOR } }
  | .PositionX => { node with render_offset := (bits, node.render_offset.2) }
  | .PositionY => { node with render_offset := (node.render_offset.1, bits) }

/-- The `position`-then-`remove` pair on the animation registry used by the
conflict check in `start_animation` (animation.rs): the first animation
matching `(target, property, non-spinner)` together with the registry
without it. -/
def extract_conflict :
    List Animation → Nat → AnimProp → Option (Animation × List Animation)
  | [], _, _ => none
  | a :: rest, target, property =>
    if a.target = target ∧ a.property = property ∧ a.spinner = none then
      some (a, rest)
    else
      match extract_conflict rest target property with
      | some (b, rest') => some (b, a :: rest')
      | none => none

/-- `start_animation` (animation.rs): validate the target; on a conflicting
non-spinner animation for the same `(target, property)`, capture its
current interpolated value as the start, drop it and the chain entries on
either side of it; otherwise read the node's current property value.  Push
the new animation and return its handle. -/
def start_animation (elastic : ℚ → ℚ) (ctx : TuiContext) (target : Nat)
    (property : AnimProp) (target_bits : ℚ) (duration_ms : Nat)
    (easing : Easing) : Except String (TuiContext × Nat) :=
  match ctx.validate_handle target with
  | .error e => .error e
  | .ok _ =>
    match extract_conflict ctx.animations target property with
    | some (existing, remaining) =>
      let t : ℚ :=
        if existing.duration_ms = 0 then 1
        else qclamp (existing.elapsed_ms / (existing.duration_ms : ℚ)) 0 1
      let alpha := apply_easing elastic existing.easing t
      let current :=
        interpolate property existing.start_bits existing.end_bits alpha
      let chains := aerase ctx.animation_chains existing.id
      let chains := chains.filter (fun pr => pr.2 ≠ existing.id)
      let id := ctx.next_anim_handle
      .ok ({ ctx with
              animations := remaining ++
                [{ id := id, target := target, property := property
                   start_bits := current, end_bits := target_bits
                   duration_ms := duration_ms, elapsed_ms := 0
                   easing := easing, looping := false, pending := false
                   spinner := none }]
              animation_chains := chains
              next_anim_handle := ctx.next_anim_handle + 1 }, id)
    | none =>
      match alookup ctx.nodes target with
      | none => .error ("Invalid handle: " ++ toString target)
      | some node =>
        let start_bits := read_property node property
        let id := ctx.next_anim_handle
        .ok ({ ctx with
                animations := ctx.animations ++
                  [{ id := id, target := target, property := property
                     start_bits := start_bits, end_bits := target_bits
                     duration_ms := duration_ms, elapsed_ms := 0
                     easing := easing, looping := false, pending := false
                     spinner := none }]
                next_anim_handle := ctx.next_anim_handle + 1 }, id)

/-- `iter_mut().find(|a| a.id == i)` followed by a mutation: apply `f` to
the first animation with the given id, if any. -/
def update_first_anim (l : List Animation) (i : Nat)
    (f : Animation → Animation) : List Animation :=
  match l with
  | [] => []
  | a :: rest =>
    if a.id = i then f a :: rest else a :: update_first_anim rest i f

/-- `position(|a| a.id == i)` followed by `Vec::remove`: the registry
without its first animation of the given id, or `none` if absent. -/
def remove_first_anim : List Animation → Nat → Option (List Animation)
  | [], _ => none
  | a :: rest, i =>
    if a.id = i then some rest
    else (remove_first_anim rest i).map (fun l => a :: l)

/-- `cancel_animation` (animation.rs): drop the animation, the chain entry
keyed on it, and its choreography memberships; the node keeps the last
written value and is not marked dirty. -/
def cancel_animation (ctx : TuiContext) (anim_id : Nat) :
    Except String TuiContext :=
  match remove_first_anim ctx.animations anim_id with
  | none => .error ("Animation not found: " ++ toString anim_id)
  | some rest =>
    let ctx1 := { ctx with animations := rest }
    let ctx2 := { ctx1 with
      animation_chains := aerase ctx1.animation_chains anim_id }
    .ok (remove_animation_from_choreography ctx2 anim_id)

/-- `chain_animation` (animation.rs): both ends must exist; the successor
becomes pending with its progress reset, and the chain entry is recorded. -/
def chain_animation (ctx : TuiContext) (after_anim next_anim : Nat) :
    Except String TuiContext :=
  if ¬ ctx.animations.any (fun a => a.id = after_anim) then
    .error ("Animation not found: " ++ toString after_anim)
  else if ¬ ctx.animations.any (fun a => a.id = next_anim) then
    .error ("Animation not found: " ++ toString next_anim)
  else
    .ok { ctx with
      animations := update_first_anim ctx.animations next_anim
        (fun a => { a with pending := true, elapsed_ms := 0 })
      animation_chains := ainsert ctx.animation_chains after_anim next_anim }

/-- `set_animation_looping` (animation.rs). -/
def set_animation_looping (ctx : TuiContext) (anim_id : Nat) :
    Except String TuiContext :=
  if ctx.animations.any (fun a => a.id = anim_id) then
    .ok { ctx with
      animations := update_first_anim ctx.animations anim_id
        (fun a => { a with looping := true }) }
  else
    .error ("Animation not found: " ++ toString anim_id)

/-- The HashMap `entry(..).and_modify(max).or_insert(..)` step building the
activation map in `advance_choreography`. -/
def amap_merge (m : List (Nat × ℚ)) (pr : Nat × ℚ) : List (Nat × ℚ) :=
  match alookup m pr.1 with
  | some _ => aupdate m pr.1 (fun v => max v pr.2)
  | none => ainsert m pr.1 pr.2

/-- The per-group pass of `advance_choreography` (animation.rs): advance
the group clock, mark newly crossed members started (collecting their
in-frame active time), and stop the group once every member has started. -/
def choreo_group_step (elapsed_ms : ℚ) (g : ChoreographyGroup) :
    ChoreographyGroup × List (Nat × ℚ) :=
  if ¬ g.running then (g, [])
  else
    let prev_elapsed := g.elapsed_ms
    let next_elapsed := prev_elapsed + elapsed_ms
    let members := g.members.map (fun m =>
      if m.started then m
      else if next_elapsed ≥ (m.start_at_ms : ℚ) then { m with started := true }
      else m)
    let to_start := g.members.filterMap (fun m =>
      if m.started then none
      else if next_elapsed ≥ (m.start_at_ms : ℚ) then
        some (m.anim_id,
          qclamp (next_elapsed - max prev_elapsed (m.start_at_ms : ℚ))
            0 elapsed_ms)
      else none)
    let running := ¬ members.all (fun m => m.started)
    ({ g with elapsed_ms := next_elapsed, members := members
              running := running }, to_start)

/-- One `to_start` entry folded into `(ctx, activation map)`: clear
`pending` on the first animation of that id if present, recording the
active elapsed time. -/
def activation_step (acc : TuiContext × List (Nat × ℚ)) (pr : Nat × ℚ) :
    TuiContext × List (Nat × ℚ) :=
  if acc.1.animations.any (fun a => a.id = pr.1) then
    ({ acc.1 with
        animations := update_first_anim acc.1.animations pr.1
          (fun a => { a with pending := false }) },
     amap_merge acc.2 pr)
  else acc

/-- `advance_choreography` (animation.rs): step every running group, then
clear `pending` on each newly started animation that exists, building the
activation-elapsed map (duplicates merged by `max`). -/
def advance_choreography (ctx : TuiContext) (elapsed_ms : ℚ) :
    TuiContext × List (Nat × ℚ) :=
  let stepped := ctx.choreo_groups.map (fun p =>
    (p.1, choreo_group_step elapsed_ms p.2))
  let groups := stepped.map (fun p => (p.1, p.2.1))
  let to_start := (stepped.map (fun p => p.2.2)).flatten
  to_start.foldl activation_step ({ ctx with choreo_groups := groups }, [])

/-- What the `for anim in &mut ctx.animations` loop body of
`advance_animations` produces for one animation: its new state and the
entries it appends to `updates`, `content_updates`, `dirty_nodes` and
`completed_ids`. -/
structure TickStep where
  anim : Animation
  update : Option (Nat × AnimProp × ℚ)
  content : Option (Nat × List Char)
  dirty : Option Nat
  completed : Option Nat
  deriving Repr

/-- The spinner frame-timer loop of `advance_animations`, in closed form:
`while frame_elapsed ≥ interval { frame_elapsed -= interval; idx += 1 }`
subtracts the interval `⌊frame_elapsed / interval⌋` times (frame timers are
nonnegative; a zero interval cannot arise, `start_spinner` floors it at 1,
and is mapped to zero steps here). -/
def spin_steps (frame_elapsed : ℚ) (interval_ms : Nat) : Nat :=
  if interval_ms = 0 then 0
  else (max 0 ⌊frame_elapsed / (interval_ms : ℚ)⌋).toNat

/-- One iteration of the `advance_animations` animation loop (animation.rs
lines 631–684). -/
def tick_animation (elastic : ℚ → ℚ) (activation : List (Nat × ℚ))
    (elapsed_ms : ℚ) (anim : Animation) : TickStep :=
  if anim.pending then ⟨anim, none, none, none, none⟩
  else
    let anim_elapsed_ms := (alookup activation anim.id).getD elapsed_ms
    match anim.spinner with
    | some spinner =>
      let fe := spinner.frame_elapsed + anim_elapsed_ms
      let k := spin_steps fe spinner.interval_ms
      let spinner' := { spinner with
        frame_elapsed := fe - (k : ℚ) * (spinner.interval_ms : ℚ)
        frame_idx := (spinner.frame_idx + k) % spinner.frames.length }
      ⟨{ anim with spinner := some spinner' },
        none, some (anim.target, spinner'.frames.getD spinner'.frame_idx []),
        some anim.target, none⟩
    | none =>
      let elapsed' := anim.elapsed_ms + anim_elapsed_ms
      if elapsed' ≥ (anim.duration_ms : ℚ) then
        if anim.looping then
          let e2 := elapsed' - (anim.duration_ms : ℚ)
          let t : ℚ :=
            if anim.duration_ms = 0 then 1
            else qclamp (e2 / (anim.duration_ms : ℚ)) 0 1
          let alpha := apply_easing elastic anim.easing t
          let bits := interpolate anim.property anim.end_bits anim.start_bits alpha
          ⟨{ anim with elapsed_ms := e2, start_bits := anim.end_bits
                       end_bits := anim.start_bits },
            some (anim.target, anim.property, bits), none,
            some anim.target, none⟩
        else
          ⟨{ anim with elapsed_ms := elapsed' },
            some (anim.target, anim.property, anim.end_bits), none,
            some anim.target, some anim.id⟩
      else
        let t := qclamp (elapsed' / (anim.duration_ms : ℚ)) 0 1
        let alpha := apply_easing elastic anim.easing t
        let bits := interpolate anim.property anim.start_bits anim.end_bits alpha
        ⟨{ anim with elapsed_ms := elapsed' },
          some (anim.target, anim.property, bits), none,
          some anim.target, none⟩

/-- One `updates` entry applied to the node table (animation.rs 687–692). -/
def apply_update (c : TuiContext) (u : Nat × AnimProp × ℚ) : TuiContext :=
  match alookup c.nodes u.1 with
  | some _ =>
    { c with nodes := aupdate c.nodes u.1 (fun n =>
        { write_property n u.2.1 u.2.2 with dirty := true }) }
  | none => c

/-- One `content_updates` entry applied to the node table (693–700). -/
def apply_content_update (c : TuiContext) (u : Nat × List Char) :
    TuiContext :=
  match alookup c.nodes u.1 with
  | some _ =>
    { c with nodes := aupdate c.nodes u.1 (fun n =>
        { n with content := u.2, dirty := true }) }
  | none => c

/-- Chain activation for one completed id (animation.rs 708–716): wake the
recorded successor and drop the chain entry. -/
def chain_step (c : TuiContext) (completed_id : Nat) : TuiContext :=
  match alookup c.animation_chains completed_id with
  | some next_id =>
    let c1 := { c with
      animations := update_first_anim c.animations next_id
        (fun a => { a with pending := false }) }
    { c1 with animation_chains := aerase c1.animation_chains completed_id }
  | none => c

/-- `advance_animations` (animation.rs). -/
def advance_animations (elastic : ℚ → ℚ) (ctx : TuiContext)
    (elapsed_ms : ℚ) : TuiContext :=
  if elapsed_ms ≤ 0 then ctx
  else
    let pr := advance_choreography ctx elapsed_ms
    let ctx1 := pr.1
    let activation := pr.2
    if ctx1.animations.isEmpty then ctx1
    else
      let steps := ctx1.animations.map
        (tick_animation elastic activation elapsed_ms)
      let updates := steps.filterMap (fun s => s.update)
      let content_updates := steps.filterMap (fun s => s.content)
      let dirty_nodes := steps.filterMap (fun s => s.dirty)
      let completed_ids := steps.filterMap (fun s => s.completed)
      let ctx2 := { ctx1 with animations := steps.map (fun s => s.anim) }
      let ctx3 := updates.foldl apply_update ctx2
      let ctx4 := content_updates.foldl apply_content_update ctx3
      let ctx5 := dirty_nodes.foldl mark_dirty ctx4
      let ctx6 := completed_ids.foldl chain_step ctx5
      let ctx7 := { ctx6 with
        animations := ctx6.animations.filter (fun a =>
          ¬ completed_ids.contains a.id) }
      completed_ids.foldl remove_animation_from_choreography ctx7

-- ===========================================================================
-- Claim C3 — start_animation conflict replacement
-- ===========================================================================

/-- `alookup` through `List.filter` never invents a binding. -/
lemma alookup_filter_none {α : Type} (p : Nat × α → Bool)
    (l : List (Nat × α)) (k : Nat) (h : alookup l k = none) :
    alookup (l.filter p) k = none := by
  induction l with
  | nil => rfl
  | cons x rest ih =>
    simp only [alookup] at h
    by_cases hk : x.1 = k
    · rw [if_pos hk] at h
      exact absurd h (by simp)
    · rw [if_neg hk] at h
      simp only [List.filter]
      cases hp : p x
      · exact ih h
      · simp only [alookup, if_neg hk]
        exact ih h

/-- Node 1 carries a half-elapsed linear opacity animation (id 1) that is
also a member of choreography group 7. -/
def exC3Anim : Animation :=
  { id := 1, target := 1, property := .Opacity, start_bits := 1
    end_bits := 0, duration_ms := 1000, elapsed_ms := 500
    easing := .Linear, looping := false, pending := false, spinner := none }

def exC3Group : ChoreographyGroup :=
  { running := false, elapsed_ms := 0
    members := [{ anim_id := 1, start_at_ms := 0, started := false }] }

def exC3Ctx : TuiContext :=
  { exBaseCtx with
      nodes := [(1, TuiNode.new .Box)]
      next_handle := 2
      root := some 1
      animations := [exC3Anim]
      next_anim_handle := 2
      choreo_groups := [(7, exC3Group)] }

/-- Claim C3, counterexample: starting a conflicting opacity animation on
node 1 replaces the prior animation (no animation with id 1 survives), yet
its membership in choreography group 7 is NOT removed —
`start_animation` never touches `choreo_groups`, contradicting the
claim's "any membership of A in a choreography group [is] removed". -/
theorem start_animation_keeps_choreography_membership :
    ∃ ctx',
      start_animation (fun t => t) exC3Ctx 1 AnimProp.Opacity 1 1000
        Easing.Linear = .ok (ctx', 2) ∧
      ctx'.animations.all (fun a => a.id ≠ 1) = true ∧
      (alookup ctx'.choreo_groups 7).map
        (fun g => g.members.any (fun m => m.anim_id = 1)) = some true := by
  refine ⟨_, rfl, by decide, by decide⟩

/-- Claim C3 (amended: conflict replacement does NOT remove the replaced
animation's choreography-group memberships — see the counterexample — but
does everything else the claim states): for a valid target, if the
registry holds a non-spinner animation `A` for `(target, property)`
(`extract_conflict` returns `A` and the registry `rest` without it), the
call succeeds, the registry becomes `rest` plus the new animation whose
start value is `A`'s interpolated value at its current elapsed time with
easing applied, no chain entry keyed on `A` survives, and (with distinct
ids) no animation with `A`'s id survives; if there is no conflict, the new
animation's start value is the target node's current property value. -/
theorem start_animation_conflict_replacement (elastic : ℚ → ℚ)
    (ctx : TuiContext) (target : Nat) (property : AnimProp)
    (target_bits : ℚ) (duration_ms : Nat) (easing : Easing)
    (htgt : target ≠ 0) (node : TuiNode)
    (hnode : alookup ctx.nodes target = some node) :
    (∀ A rest,
      extract_conflict ctx.animations target property = some (A, rest) →
      ∃ ctx',
        start_animation elastic ctx target property target_bits duration_ms
          easing = .ok (ctx', ctx.next_anim_handle) ∧
        ctx'.animations = rest ++
          [{ id := ctx.next_anim_handle, target := target
             property := property
             start_bits := interpolate property A.start_bits A.end_bits
               (apply_easing elastic A.easing
                 (if A.duration_ms = 0 then 1
                  else qclamp (A.elapsed_ms / (A.duration_ms : ℚ)) 0 1))
             end_bits := target_bits, duration_ms := duration_ms
             elapsed_ms := 0, easing := easing, looping := false
             pending := false, spinner := none }] ∧
        alookup ctx'.animation_chains A.id = none ∧
        ((∀ B ∈ rest, B.id ≠ A.id) → A.id ≠ ctx.next_anim_handle →
          ∀ B ∈ ctx'.animations, B.id ≠ A.id) ∧
        ctx'.choreo_groups = ctx.choreo_groups) ∧
    (extract_conflict ctx.animations target property = none →
      ∃ ctx',
        start_animation elastic ctx target property target_bits duration_ms
          easing = .ok (ctx', ctx.next_anim_handle) ∧
        ctx'.animations = ctx.animations ++
          [{ id := ctx.next_anim_handle, target := target
             property := property
             start_bits := read_property node property
             end_bits := target_bits, duration_ms := duration_ms
             elapsed_ms := 0, easing := easing, looping := false
             pending := false, spinner := none }]) := by
  have hval : ctx.validate_handle target = .ok () := by
    rw [TuiContext.validate_handle, if_neg htgt, hnode]
    rfl
  constructor
  · intro A rest hex
    have heq : start_animation elastic ctx target property target_bits
        duration_ms easing =
        .ok ({ ctx with
                animations := rest ++
                  [{ id := ctx.next_anim_handle, target := target
                     property := property
                     start_bits := interpolate property A.start_bits
                       A.end_bits
                       (apply_easing elastic A.easing
                         (if A.duration_ms = 0 then 1
                          else qclamp (A.elapsed_ms / (A.duration_ms : ℚ))
                            0 1))
                     end_bits := target_bits, duration_ms := duration_ms
                     elapsed_ms := 0, easing := easing, looping := false
                     pending := false, spinner := none }]
                animation_chains := (aerase ctx.animation_chains
                  A.id).filter (fun pr => pr.2 ≠ A.id)
                next_anim_handle := ctx.next_anim_handle + 1 },
             ctx.next_anim_handle) := by
      rw [start_animation, hval]
      dsimp only
      rw [hex]
    refine ⟨_, heq, rfl, ?_, ?_, rfl⟩
    · exact alookup_filter_none _ _ _ (alookup_aerase_self _ _)
    · intro hrest hid B hB
      rcases List.mem_append.mp hB with h | h
      · exact hrest B h
      · rcases List.mem_singleton.mp h with rfl
        exact fun hc => hid hc.symm
  · intro hex
    have heq : start_animation elastic ctx target property target_bits
        duration_ms easing =
        .ok ({ ctx with
                animations := ctx.animations ++
                  [{ id := ctx.next_anim_handle, target := target
                     property := property
                     start_bits := read_property node property
                     end_bits := target_bits, duration_ms := duration_ms
                     elapsed_ms := 0, easing := easing, looping := false
                     pending := false, spinner := none }]
                next_anim_handle := ctx.next_anim_handle + 1 },
             ctx.next_anim_handle) := by
      rw [start_animation, hval]
      dsimp only
      rw [hex, hnode]
    exact ⟨_, heq, rfl⟩

/-- Witness for claim C3's amended theorem, echoing scenario S5: in
`exC3Ctx` the half-elapsed linear 1.0→0.0 opacity animation conflicts with
a new animation on the same node and property; the replacement starts
from its current interpolated value, which is exactly 0.5. -/
theorem start_animation_conflict_replacement_witness :
    (1 : Nat) ≠ 0 ∧
    alookup exC3Ctx.nodes 1 = some (TuiNode.new .Box) ∧
    extract_conflict exC3Ctx.animations 1 .Opacity = some (exC3Anim, []) ∧
    (∃ ctx',
      start_animation (fun t => t) exC3Ctx 1 AnimProp.Opacity 1 1000
        Easing.Linear = .ok (ctx', exC3Ctx.next_anim_handle) ∧
      ctx'.animations = [] ++
        [{ id := exC3Ctx.next_anim_handle, target := 1
           property := .Opacity
           start_bits := interpolate .Opacity exC3Anim.start_bits
             exC3Anim.end_bits
             (apply_easing (fun t => t) exC3Anim.easing
               (if exC3Anim.duration_ms = 0 then 1
                else qclamp
                  (exC3Anim.elapsed_ms / (exC3Anim.duration_ms : ℚ)) 0 1))
           end_bits := 1, duration_ms := 1000, elapsed_ms := 0
           easing := .Linear, looping := false, pending := false
           spinner := none }] ∧
      alookup ctx'.animation_chains exC3Anim.id = none ∧
      ((∀ B ∈ ([] : List Animation), B.id ≠ exC3Anim.id) →
        exC3Anim.id ≠ exC3Ctx.next_anim_handle →
        ∀ B ∈ ctx'.animations, B.id ≠ exC3Anim.id) ∧
      ctx'.choreo_groups = exC3Ctx.choreo_groups) ∧
    interpolate .Opacity exC3Anim.start_bits exC3Anim.end_bits
      (apply_easing (fun t => t) exC3Anim.easing
        (if exC3Anim.duration_ms = 0 then 1
         else qclamp (exC3Anim.elapsed_ms / (exC3Anim.duration_ms : ℚ)) 0 1))
      = 1 / 2 :=
  ⟨by decide, rfl, by decide,
    (start_animation_conflict_replacement (fun t => t) exC3Ctx 1 .Opacity 1
      1000 .Linear (by decide) (TuiNode.new .Box) rfl).1 exC3Anim []
      (by decide),
    by norm_num [exC3Anim, interpolate, interpolate_f32, apply_easing,
      qclamp]⟩

-- ===========================================================================
-- Claim C4 — one-shot animation completion
-- ===========================================================================

theorem Animation.pend_eta (a : Animation) (h : a.pending = false) :
    ({ a with pending := false } : Animation) = a := by
  cases a
  simp_all

/-- `l'` is `l` with the `pending` flag cleared on some of its elements
(the only thing `advance_choreography` does to the registry). -/
def pend_clear (l l' : List Animation) : Prop :=
  l'.length = l.length ∧
  ∀ j : Nat, l'[j]? = l[j]? ∨
    ∃ a, l[j]? = some a ∧ l'[j]? = some { a with pending := false }

theorem pend_clear_refl (l : List Animation) : pend_clear l l :=
  ⟨rfl, fun _ => Or.inl rfl⟩

theorem update_first_anim_length (l : List Animation) (i : Nat)
    (f : Animation → Animation) :
    (update_first_anim l i f).length = l.length := by
  induction l with
  | nil => rfl
  | cons a rest ih =>
    simp only [update_first_anim]
    by_cases h : a.id = i
    · rw [if_pos h]
      simp
    · rw [if_neg h]
      simp only [List.length_cons, ih]

theorem update_first_anim_getElem (l : List Animation) (i : Nat)
    (f : Animation → Animation) :
    ∀ j : Nat, (update_first_anim l i f)[j]? = l[j]? ∨
      ∃ a, l[j]? = some a ∧ (update_first_anim l i f)[j]? = some (f a) := by
  induction l with
  | nil => intro j; exact Or.inl rfl
  | cons a rest ih =>
    intro j
    simp only [update_first_anim]
    by_cases h : a.id = i
    · rw [if_pos h]
      cases j with
      | zero => exact Or.inr ⟨a, by simp, by simp⟩
      | succ j => exact Or.inl (by simp)
    · rw [if_neg h]
      cases j with
      | zero => exact Or.inl (by simp)
      | succ j =>
        simpa only [List.getElem?_cons_succ] using ih j

theorem pend_clear_update_first (l l' : List Animation) (i : Nat)
    (h : pend_clear l l') :
    pend_clear l
      (update_first_anim l' i (fun a => { a with pending := false })) := by
  obtain ⟨hlen, hget⟩ := h
  refine ⟨(update_first_anim_length l' i _).trans hlen, ?_⟩
  intro j
  rcases update_first_anim_getElem l' i _ j with he | ⟨a, ha, hb⟩
  · rw [he]
    exact hget j
  · rcases hget j with h2 | ⟨b, hb1, hb2⟩
    · rw [h2] at ha
      exact Or.inr ⟨a, ha, hb⟩
    · rw [hb2] at ha
      have haeq : a = { b with pending := false } := by
        injection ha.symm
      rw [haeq, Animation.pend_eta { b with pending := false } rfl] at hb
      exact Or.inr ⟨b, hb1, hb⟩

theorem pend_clear_map_id (l l' : List Animation) (h : pend_clear l l') :
    l'.map (fun a => a.id) = l.map (fun a => a.id) := by
  obtain ⟨hlen, hget⟩ := h
  apply List.ext_getElem?
  intro j
  simp only [List.getElem?_map]
  rcases hget j with he | ⟨a, h1, h2⟩
  · rw [he]
  · rw [h1, h2]
    rfl

theorem pend_clear_mem_of_not_pending (l l' : List Animation)
    (h : pend_clear l l') (A : Animation) (hA : A ∈ l)
    (hp : A.pending = false) : A ∈ l' := by
  obtain ⟨hlen, hget⟩ := h
  obtain ⟨j, hj⟩ := List.mem_iff_getElem?.mp hA
  rcases hget j with he | ⟨a, h1, h2⟩
  · exact List.mem_iff_getElem?.mpr ⟨j, by rw [he, hj]⟩
  · have haA : a = A := by
      rw [hj] at h1
      injection h1 with h1e
      exact h1e.symm
    rw [haA, Animation.pend_eta A hp] at h2
    exact List.mem_iff_getElem?.mpr ⟨j, h2⟩

theorem pend_clear_mem_rev (l l' : List Animation) (h : pend_clear l l')
    (B : Animation) (hB : B ∈ l') :
    ∃ B0 ∈ l, B = B0 ∨ B = { B0 with pending := false } := by
  obtain ⟨hlen, hget⟩ := h
  obtain ⟨j, hj⟩ := List.mem_iff_getElem?.mp hB
  rcases hget j with he | ⟨a, h1, h2⟩
  · rw [hj] at he
    exact ⟨B, List.mem_iff_getElem?.mpr ⟨j, he.symm⟩, Or.inl rfl⟩
  · refine ⟨a, List.mem_iff_getElem?.mpr ⟨j, h1⟩, Or.inr ?_⟩
    rw [hj] at h2
    injection h2

theorem pend_clear_singleton (A : Animation) (l' : List Animation)
    (h : pend_clear [A] l') (hp : A.pending = false) : l' = [A] := by
  obtain ⟨hlen, hget⟩ := h
  apply List.ext_getElem?
  intro j
  rcases hget j with he | ⟨a, h1, h2⟩
  · exact he
  · rw [h2]
    cases j with
    | zero =>
      have haA : a = A := by
        simp only [List.getElem?_cons_zero, Option.some.injEq] at h1
        exact h1.symm
      rw [haA, Animation.pend_eta A hp]
      simp
    | succ j =>
      exact absurd h1 (by simp)

theorem activation_step_fields (acc : TuiContext × List (Nat × ℚ))
    (pr : Nat × ℚ) :
    (activation_step acc pr).1.nodes = acc.1.nodes ∧
    (activation_step acc pr).1.animation_chains =
      acc.1.animation_chains ∧
    (activation_step acc pr).1.choreo_groups = acc.1.choreo_groups := by
  rw [activation_step]
  split_ifs <;> exact ⟨rfl, rfl, rfl⟩

theorem foldl_activation_fields (L : List (Nat × ℚ)) :
    ∀ acc : TuiContext × List (Nat × ℚ),
      (L.foldl activation_step acc).1.nodes = acc.1.nodes ∧
      (L.foldl activation_step acc).1.animation_chains =
        acc.1.animation_chains ∧
      (L.foldl activation_step acc).1.choreo_groups =
        acc.1.choreo_groups := by
  induction L with
  | nil => intro acc; exact ⟨rfl, rfl, rfl⟩
  | cons pr L ih =>
    intro acc
    rw [List.foldl_cons]
    obtain ⟨h1, h2, h3⟩ := ih (activation_step acc pr)
    obtain ⟨g1, g2, g3⟩ := activation_step_fields acc pr
    exact ⟨h1.trans g1, h2.trans g2, h3.trans g3⟩

theorem foldl_activation_pend_clear (L : List (Nat × ℚ)) :
    ∀ (acc : TuiContext × List (Nat × ℚ)) (l : List Animation),
      pend_clear l acc.1.animations →
      pend_clear l (L.foldl activation_step acc).1.animations := by
  induction L with
  | nil => intro acc l h; exact h
  | cons pr L ih =>
    intro acc l h
    rw [List.foldl_cons]
    apply ih
    rw [activation_step]
    split_ifs with hc
    · exact pend_clear_update_first l acc.1.animations pr.1 h
    · exact h

theorem advance_choreography_nodes (ctx : TuiContext) (e : ℚ) :
    (advance_choreography ctx e).1.nodes = ctx.nodes :=
  (foldl_activation_fields _ _).1

theorem advance_choreography_chains (ctx : TuiContext) (e : ℚ) :
    (advance_choreography ctx e).1.animation_chains =
      ctx.animation_chains :=
  (foldl_activation_fields _ _).2.1

theorem advance_choreography_pend_clear (ctx : TuiContext) (e : ℚ) :
    pend_clear ctx.animations (advance_choreography ctx e).1.animations :=
  foldl_activation_pend_clear _ _ _ (pend_clear_refl _)


theorem alookup_aerase_none {α : Type} (m : List (Nat × α)) (i k : Nat)
    (h : alookup m k = none) : alookup (aerase m i) k = none := by
  by_cases hik : i = k
  · rw [hik]
    exact alookup_aerase_self m k
  · rw [alookup_aerase_ne m i k (fun hc => hik hc.symm)]
    exact h

theorem amap_merge_lookup_ne (m : List (Nat × ℚ)) (pr : Nat × ℚ) (k : Nat)
    (hk : k ≠ pr.1) : alookup (amap_merge m pr) k = alookup m k := by
  rw [amap_merge]
  cases h : alookup m pr.1 with
  | some v =>
    dsimp only
    exact alookup_aupdate_ne m pr.1 k _ hk
  | none =>
    dsimp only [ainsert, alookup]
    rw [if_neg (fun hc => hk hc.symm)]

theorem activation_step_lookup_ne (acc : TuiContext × List (Nat × ℚ))
    (pr : Nat × ℚ) (k : Nat) (hk : k ≠ pr.1) :
    alookup (activation_step acc pr).2 k = alookup acc.2 k := by
  rw [activation_step]
  split_ifs
  · exact amap_merge_lookup_ne acc.2 pr k hk
  · rfl

theorem foldl_activation_lookup_none (L : List (Nat × ℚ)) :
    ∀ (acc : TuiContext × List (Nat × ℚ)) (k : Nat),
      (∀ pr ∈ L, pr.1 ≠ k) → alookup acc.2 k = none →
      alookup (L.foldl activation_step acc).2 k = none := by
  induction L with
  | nil => intro acc k _ h; exact h
  | cons pr L ih =>
    intro acc k hall h
    rw [List.foldl_cons]
    apply ih _ k (fun q hq => hall q (List.mem_cons_of_mem pr hq))
    rw [activation_step_lookup_ne acc pr k
      (fun hc => hall pr (List.mem_cons_self pr L) hc.symm)]
    exact h

theorem choreo_group_step_to_start_ids (e : ℚ) (g : ChoreographyGroup)
    (k : Nat)
    (h : ∀ m ∈ g.members, m.anim_id = k → m.started = true) :
    ∀ pr ∈ (choreo_group_step e g).2, pr.1 ≠ k := by
  intro pr hpr
  rw [choreo_group_step] at hpr
  by_cases hr : g.running = true
  · rw [if_neg (fun hc => hc hr)] at hpr
    dsimp only at hpr
    obtain ⟨m, hm, heq⟩ := List.mem_filterMap.mp hpr
    by_cases hs : m.started
    · rw [if_pos hs] at heq
      exact absurd heq (by simp)
    · rw [if_neg hs] at heq
      split_ifs at heq with hc
      · have hpr1 : pr.1 = m.anim_id := by
          rw [← Option.some_inj.mp heq]
        rw [hpr1]
        intro hk
        exact hs (h m hm hk)
  · rw [if_pos hr] at hpr
    exact absurd hpr (List.not_mem_nil pr)

theorem advance_choreography_lookup_none (ctx : TuiContext) (e : ℚ)
    (k : Nat)
    (h : ∀ p ∈ ctx.choreo_groups, ∀ m ∈ p.2.members,
      m.anim_id = k → m.started = true) :
    alookup (advance_choreography ctx e).2 k = none := by
  rw [advance_choreography]
  apply foldl_activation_lookup_none
  · intro pr hpr
    rw [List.mem_flatten] at hpr
    obtain ⟨l, hl, hprl⟩ := hpr
    rw [List.mem_map] at hl
    obtain ⟨q, hq, rfl⟩ := hl
    rw [List.mem_map] at hq
    obtain ⟨p, hp, rfl⟩ := hq
    exact choreo_group_step_to_start_ids e p.2 k (h p hp) pr hprl
  · rfl

/-- The value that `write_property` stores for a property (opacity is
clamped, everything else verbatim). -/
def written_value (property : AnimProp) (bits : ℚ) : ℚ :=
  match property with
  | .Opacity => qclamp bits 0 1
  | _ => bits

theorem read_write_same (n : TuiNode) (p : AnimProp) (bits : ℚ) :
    read_property (write_property n p bits) p = written_value p bits := by
  cases p <;> rfl

theorem read_write_other (n : TuiNode) (p q : AnimProp) (bits : ℚ)
    (h : q ≠ p) :
    read_property (write_property n q bits) p = read_property n p := by
  cases p <;> cases q <;> first | exact absurd rfl h | rfl

theorem read_set_dirty (n : TuiNode) (p : AnimProp) (b : Bool) :
    read_property { n with dirty := b } p = read_property n p := by
  cases p <;> rfl

theorem read_set_content (n : TuiNode) (p : AnimProp) (c : List Char)
    (b : Bool) :
    read_property { n with content := c, dirty := b } p =
      read_property n p := by
  cases p <;> rfl

theorem tick_animation_id (el : ℚ → ℚ) (act : List (Nat × ℚ)) (e : ℚ)
    (a : Animation) : (tick_animation el act e a).anim.id = a.id := by
  rw [tick_animation]
  by_cases hp : a.pending = true
  · rw [if_pos hp]
  · rw [if_neg hp]
    dsimp only
    cases hsp : a.spinner with
    | some sp => rfl
    | none =>
      dsimp only
      split_ifs <;> rfl

/-- A completed non-looping, non-spinner, non-pending animation whose id is
not in the activation map ticks to: elapsed advanced by the full slice, an
update carrying its exact end bits, a dirty mark, and its own completion. -/
theorem tick_animation_complete (el : ℚ → ℚ) (act : List (Nat × ℚ))
    (e : ℚ) (A : Animation) (hpend : A.pending = false)
    (hspin : A.spinner = none) (hloop : A.looping = false)
    (hact : alookup act A.id = none)
    (hdone : (A.duration_ms : ℚ) ≤ A.elapsed_ms + e) :
    tick_animation el act e A =
      ⟨{ A with elapsed_ms := A.elapsed_ms + e },
        some (A.target, A.property, A.end_bits), none, some A.target,
        some A.id⟩ := by
  rw [tick_animation, if_neg (by simp [hpend])]
  dsimp only
  rw [hact]
  dsimp only [Option.getD]
  rw [hspin]
  dsimp only
  rw [if_pos hdone, if_neg (by simp [hloop])]

theorem tick_animation_update_shape (el : ℚ → ℚ) (act : List (Nat × ℚ))
    (e : ℚ) (a : Animation) (u : Nat × AnimProp × ℚ)
    (h : (tick_animation el act e a).update = some u) :
    u.1 = a.target ∧ u.2.1 = a.property ∧ a.pending = false ∧
      a.spinner = none := by
  rw [tick_animation] at h
  by_cases hp : a.pending = true
  · rw [if_pos hp] at h
    exact absurd h (by simp)
  · rw [if_neg hp] at h
    dsimp only at h
    cases hsp : a.spinner with
    | some sp =>
      rw [hsp] at h
      exact absurd h (by simp)
    | none =>
      rw [hsp] at h
      dsimp only at h
      have hp' : a.pending = false := by
        revert hp
        cases a.pending <;> simp
      split_ifs at h <;>
        (injection h with h'
         rw [← h']
         exact ⟨rfl, rfl, hp', rfl⟩)

theorem tick_animation_completed_shape (el : ℚ → ℚ)
    (act : List (Nat × ℚ)) (e : ℚ) (a : Animation) (cid : Nat)
    (h : (tick_animation el act e a).completed = some cid) :
    cid = a.id := by
  rw [tick_animation] at h
  by_cases hp : a.pending = true
  · rw [if_pos hp] at h
    exact absurd h (by simp)
  · rw [if_neg hp] at h
    dsimp only at h
    cases hsp : a.spinner with
    | some sp =>
      rw [hsp] at h
      exact absurd h (by simp)
    | none =>
      rw [hsp] at h
      dsimp only at h
      split_ifs at h <;> first
        | (injection h with h'
           exact h'.symm)
        | injection h

theorem apply_update_fields (c : TuiContext) (u : Nat × AnimProp × ℚ) :
    (apply_update c u).animations = c.animations ∧
    (apply_update c u).animation_chains = c.animation_chains ∧
    (apply_update c u).choreo_groups = c.choreo_groups := by
  unfold apply_update
  split <;> exact ⟨rfl, rfl, rfl⟩

theorem apply_update_lookup_other (c : TuiContext) (u : Nat × AnimProp × ℚ)
    (t : Nat) (h : u.1 ≠ t) :
    alookup (apply_update c u).nodes t = alookup c.nodes t := by
  unfold apply_update
  split
  · dsimp only
    exact alookup_aupdate_ne c.nodes u.1 t _ (fun hc => h hc.symm)
  · rfl

theorem apply_update_lookup_self (c : TuiContext) (u : Nat × AnimProp × ℚ)
    (n0 : TuiNode) (h : alookup c.nodes u.1 = some n0) :
    alookup (apply_update c u).nodes u.1 =
      some { write_property n0 u.2.1 u.2.2 with dirty := true } := by
  unfold apply_update
  rw [h]
  dsimp only
  rw [alookup_aupdate_self, h]
  rfl

/-- Folding property updates preserves a property value already read as `v`
whenever every remaining matching entry writes that same value. -/
theorem foldl_apply_update_preserve (U : List (Nat × AnimProp × ℚ)) :
    ∀ (c : TuiContext) (t : Nat) (p : AnimProp) (v : ℚ) (n0 : TuiNode),
      alookup c.nodes t = some n0 → read_property n0 p = v →
      (∀ u ∈ U, u.1 = t → u.2.1 = p → written_value p u.2.2 = v) →
      ∃ n', alookup ((U.foldl apply_update c).nodes) t = some n' ∧
        read_property n' p = v := by
  induction U with
  | nil => exact fun c t p v n0 h1 h2 _ => ⟨n0, h1, h2⟩
  | cons u U ih =>
    intro c t p v n0 h1 h2 hall
    rw [List.foldl_cons]
    by_cases ht : u.1 = t
    · have h1' : alookup c.nodes u.1 = some n0 := by rw [ht]; exact h1
      have h3 : alookup (apply_update c u).nodes t =
          some { write_property n0 u.2.1 u.2.2 with dirty := true } := by
        rw [← ht]
        exact apply_update_lookup_self c u n0 h1'
      by_cases hprop : u.2.1 = p
      · have h4 : read_property
            { write_property n0 u.2.1 u.2.2 with dirty := true } p = v := by
          rw [read_set_dirty, hprop, read_write_same]
          exact hall u (List.mem_cons_self u U) ht hprop
        exact ih _ t p v _ h3 h4
          (fun u' hu' => hall u' (List.mem_cons_of_mem u hu'))
      · have h4 : read_property
            { write_property n0 u.2.1 u.2.2 with dirty := true } p = v := by
          rw [read_set_dirty, read_write_other n0 p u.2.1 u.2.2 hprop]
          exact h2
        exact ih _ t p v _ h3 h4
          (fun u' hu' => hall u' (List.mem_cons_of_mem u hu'))
    · have h3 : alookup (apply_update c u).nodes t = some n0 := by
        rw [apply_update_lookup_other c u t ht]
        exact h1
      exact ih _ t p v n0 h3 h2
        (fun u' hu' => hall u' (List.mem_cons_of_mem u hu'))

/-- Folding property updates writes `written_value p bits` to `(t, p)` when
some entry matches `(t, p)` and every matching entry carries `bits`. -/
theorem foldl_apply_update_write (U : List (Nat × AnimProp × ℚ)) :
    ∀ (c : TuiContext) (t : Nat) (p : AnimProp) (bits : ℚ),
      (alookup c.nodes t).isSome →
      (∀ u ∈ U, u.1 = t → u.2.1 = p → u.2.2 = bits) →
      (∃ u ∈ U, u.1 = t ∧ u.2.1 = p) →
      ∃ n', alookup ((U.foldl apply_update c).nodes) t = some n' ∧
        read_property n' p = written_value p bits := by
  induction U with
  | nil =>
    intro c t p bits _ _ hex
    obtain ⟨u, hu, _⟩ := hex
    exact absurd hu (List.not_mem_nil u)
  | cons u U ih =>
    intro c t p bits hsome hall hex
    rw [List.foldl_cons]
    obtain ⟨n0, hn0⟩ := Option.isSome_iff_exists.mp hsome
    by_cases hm : u.1 = t ∧ u.2.1 = p
    · have h1' : alookup c.nodes u.1 = some n0 := by rw [hm.1]; exact hn0
      have h3 : alookup (apply_update c u).nodes t =
          some { write_property n0 u.2.1 u.2.2 with dirty := true } := by
        rw [← hm.1]
        exact apply_update_lookup_self c u n0 h1'
      have h4 : read_property
          { write_property n0 u.2.1 u.2.2 with dirty := true } p =
          written_value p bits := by
        rw [read_set_dirty, hm.2, read_write_same,
          hall u (List.mem_cons_self u U) hm.1 hm.2]
      exact foldl_apply_update_preserve U _ t p _ _ h3 h4
        (fun u' hu' h1 h2 => by
          rw [hall u' (List.mem_cons_of_mem u hu') h1 h2])
    · have h3 : (alookup (apply_update c u).nodes t).isSome := by
        by_cases ht : u.1 = t
        · have h1' : alookup c.nodes u.1 = some n0 := by rw [ht]; exact hn0
          rw [← ht, apply_update_lookup_self c u n0 h1']
          rfl
        · rw [apply_update_lookup_other c u t ht, hn0]
          rfl
      have hex' : ∃ u' ∈ U, u'.1 = t ∧ u'.2.1 = p := by
        obtain ⟨u', hu', hU⟩ := hex
        rcases List.mem_cons.mp hu' with rfl | hu2
        · exact absurd hU hm
        · exact ⟨u', hu2, hU⟩
      exact ih _ t p bits h3
        (fun u' hu' => hall u' (List.mem_cons_of_mem u hu')) hex'

theorem apply_content_update_fields (c : TuiContext) (u : Nat × List Char) :
    (apply_content_update c u).animations = c.animations ∧
    (apply_content_update c u).animation_chains = c.animation_chains ∧
    (apply_content_update c u).choreo_groups = c.choreo_groups := by
  unfold apply_content_update
  split <;> exact ⟨rfl, rfl, rfl⟩

theorem apply_content_update_read (c : TuiContext) (u : Nat × List Char)
    (t : Nat) (p : AnimProp) (v : ℚ)
    (h : ∃ n0, alookup c.nodes t = some n0 ∧ read_property n0 p = v) :
    ∃ n1, alookup (apply_content_update c u).nodes t = some n1 ∧
      read_property n1 p = v := by
  obtain ⟨n0, h1, h2⟩ := h
  unfold apply_content_update
  split
  · dsimp only
    by_cases ht : u.1 = t
    · have h1' : alookup c.nodes u.1 = some n0 := by rw [ht]; exact h1
      rw [← ht, alookup_aupdate_self, h1']
      exact ⟨_, rfl, by rw [read_set_content]; exact h2⟩
    · rw [alookup_aupdate_ne c.nodes u.1 t _ (fun hc => ht hc.symm), h1]
      exact ⟨n0, rfl, h2⟩
  · exact ⟨n0, h1, h2⟩

theorem foldl_apply_content_read (U : List (Nat × List Char)) :
    ∀ (c : TuiContext) (t : Nat) (p : AnimProp) (v : ℚ),
      (∃ n0, alookup c.nodes t = some n0 ∧ read_property n0 p = v) →
      ∃ n1, alookup ((U.foldl apply_content_update c).nodes) t = some n1 ∧
        read_property n1 p = v := by
  induction U with
  | nil => intro c t p v h; exact h
  | cons u U ih =>
    intro c t p v h
    rw [List.foldl_cons]
    exact ih _ t p v (apply_content_update_read c u t p v h)

theorem mark_dirty_fields (c : TuiContext) (hdl : Nat) :
    (mark_dirty c hdl).animations = c.animations ∧
    (mark_dirty c hdl).animation_chains = c.animation_chains ∧
    (mark_dirty c hdl).choreo_groups = c.choreo_groups := by
  refine ⟨?_, ?_, ?_⟩ <;> rw [mark_dirty, mark_dirty_ancestors_eta]

theorem mark_dirty_read (c : TuiContext) (hdl t : Nat) (p : AnimProp)
    (v : ℚ)
    (h : ∃ n0, alookup c.nodes t = some n0 ∧ read_property n0 p = v) :
    ∃ n1, alookup (mark_dirty c hdl).nodes t = some n1 ∧
      read_property n1 p = v := by
  obtain ⟨n0, h1, h2⟩ := h
  rw [mark_dirty]
  obtain ⟨b, hb⟩ := mark_dirty_ancestors_lookup
    { c with nodes := aupdate c.nodes hdl (fun n => { n with dirty := true }) }
    hdl t
  rw [hb]
  dsimp only
  by_cases ht : hdl = t
  · have h1' : alookup c.nodes hdl = some n0 := by rw [ht]; exact h1
    rw [← ht, alookup_aupdate_self, h1']
    exact ⟨_, rfl, by rw [read_set_dirty, read_set_dirty]; exact h2⟩
  · rw [alookup_aupdate_ne c.nodes hdl t _ (fun hc => ht hc.symm), h1]
    exact ⟨_, rfl, by rw [read_set_dirty]; exact h2⟩

theorem foldl_mark_dirty_read (L : List Nat) :
    ∀ (c : TuiContext) (t : Nat) (p : AnimProp) (v : ℚ),
      (∃ n0, alookup c.nodes t = some n0 ∧ read_property n0 p = v) →
      ∃ n1, alookup ((L.foldl mark_dirty c).nodes) t = some n1 ∧
        read_property n1 p = v := by
  induction L with
  | nil => intro c t p v h; exact h
  | cons hdl L ih =>
    intro c t p v h
    rw [List.foldl_cons]
    exact ih _ t p v (mark_dirty_read c hdl t p v h)

theorem foldl_mark_dirty_fields (L : List Nat) :
    ∀ c : TuiContext,
      (L.foldl mark_dirty c).animations = c.animations ∧
      (L.foldl mark_dirty c).animation_chains = c.animation_chains ∧
      (L.foldl mark_dirty c).choreo_groups = c.choreo_groups := by
  induction L with
  | nil => intro c; exact ⟨rfl, rfl, rfl⟩
  | cons hdl L ih =>
    intro c
    rw [List.foldl_cons]
    obtain ⟨h1, h2, h3⟩ := ih (mark_dirty c hdl)
    obtain ⟨g1, g2, g3⟩ := mark_dirty_fields c hdl
    exact ⟨h1.trans g1, h2.trans g2, h3.trans g3⟩

theorem chain_step_nodes (c : TuiContext) (i : Nat) :
    (chain_step c i).nodes = c.nodes := by
  unfold chain_step
  split <;> rfl

theorem chain_step_choreo (c : TuiContext) (i : Nat) :
    (chain_step c i).choreo_groups = c.choreo_groups := by
  unfold chain_step
  split <;> rfl

theorem update_first_anim_map_id (l : List Animation) (i : Nat)
    (f : Animation → Animation) (hf : ∀ a, (f a).id = a.id) :
    (update_first_anim l i f).map (fun a => a.id) =
      l.map (fun a => a.id) := by
  induction l with
  | nil => rfl
  | cons a rest ih =>
    simp only [update_first_anim]
    by_cases h : a.id = i
    · rw [if_pos h]
      simp only [List.map_cons, hf a]
    · rw [if_neg h]
      simp only [List.map_cons, ih]

theorem chain_step_map_id (c : TuiContext) (i : Nat) :
    (chain_step c i).animations.map (fun a => a.id) =
      c.animations.map (fun a => a.id) := by
  unfold chain_step
  split
  · dsimp only
    exact update_first_anim_map_id c.animations _ _ (fun a => rfl)
  · rfl

theorem chain_step_chains_lookup_ne (c : TuiContext) (i k : Nat)
    (h : k ≠ i) :
    alookup (chain_step c i).animation_chains k =
      alookup c.animation_chains k := by
  unfold chain_step
  split
  · dsimp only
    exact alookup_aerase_ne c.animation_chains i k h
  · rfl

theorem chain_step_self_none (c : TuiContext) (k : Nat) :
    alookup (chain_step c k).animation_chains k = none := by
  unfold chain_step
  cases hl : alookup c.animation_chains k with
  | none => exact hl
  | some nid =>
    dsimp only
    exact alookup_aerase_self _ k

theorem chain_step_chains_none (c : TuiContext) (i k : Nat)
    (h : alookup c.animation_chains k = none) :
    alookup (chain_step c i).animation_chains k = none := by
  unfold chain_step
  split
  · dsimp only
    exact alookup_aerase_none c.animation_chains i k h
  · exact h

theorem foldl_chain_step_none_preserve (L : List Nat) :
    ∀ (c : TuiContext) (k : Nat),
      alookup c.animation_chains k = none →
      alookup ((L.foldl chain_step c).animation_chains) k = none := by
  induction L with
  | nil => intro c k h; exact h
  | cons i L ih =>
    intro c k h
    rw [List.foldl_cons]
    exact ih _ k (chain_step_chains_none c i k h)

theorem foldl_chain_step_mem_none (L : List Nat) :
    ∀ (c : TuiContext) (k : Nat), k ∈ L →
      alookup ((L.foldl chain_step c).animation_chains) k = none := by
  induction L with
  | nil => intro c k h; exact absurd h (List.not_mem_nil k)
  | cons i L ih =>
    intro c k h
    rw [List.foldl_cons]
    by_cases hik : k = i
    · rw [hik]
      exact foldl_chain_step_none_preserve L _ i (chain_step_self_none c i)
    · exact ih _ k ((List.mem_cons.mp h).resolve_left hik)

theorem update_first_anim_pending_all (l : List Animation) (next : Nat)
    (hnd : (l.map (fun a => a.id)).Nodup) :
    ∀ B ∈ update_first_anim l next (fun a => { a with pending := false }),
      B.id = next → B.pending = false := by
  induction l with
  | nil => intro B hB; exact absurd hB (List.not_mem_nil B)
  | cons a rest ih =>
    simp only [List.map_cons, List.nodup_cons] at hnd
    simp only [update_first_anim]
    by_cases h : a.id = next
    · rw [if_pos h]
      intro B hB hBid
      rcases List.mem_cons.mp hB with rfl | hBr
      · rfl
      · exact absurd (List.mem_map.mpr ⟨B, hBr, hBid.trans h.symm⟩) hnd.1
    · rw [if_neg h]
      intro B hB hBid
      rcases List.mem_cons.mp hB with rfl | hBr
      · exact absurd hBid h
      · exact ih hnd.2 B hBr hBid

theorem update_first_anim_pending_preserve (l : List Animation) (i k : Nat)
    (h : ∀ B ∈ l, B.id = k → B.pending = false) :
    ∀ B ∈ update_first_anim l i (fun a => { a with pending := false }),
      B.id = k → B.pending = false := by
  induction l with
  | nil => intro B hB; exact absurd hB (List.not_mem_nil B)
  | cons a rest ih =>
    simp only [update_first_anim]
    by_cases ha : a.id = i
    · rw [if_pos ha]
      intro B hB hBid
      rcases List.mem_cons.mp hB with rfl | hBr
      · rfl
      · exact h B (List.mem_cons_of_mem a hBr) hBid
    · rw [if_neg ha]
      intro B hB hBid
      rcases List.mem_cons.mp hB with hBa | hBr
      · exact h B (List.mem_cons.mpr (Or.inl hBa)) hBid
      · exact ih (fun C hC => h C (List.mem_cons_of_mem a hC)) B hBr hBid

theorem chain_step_pending_preserve (c : TuiContext) (i k : Nat)
    (h : ∀ B ∈ c.animations, B.id = k → B.pending = false) :
    ∀ B ∈ (chain_step c i).animations, B.id = k → B.pending = false := by
  unfold chain_step
  split
  · dsimp only
    exact update_first_anim_pending_preserve c.animations _ k h
  · exact h

theorem chain_step_establish (c : TuiContext) (k next : Nat)
    (hc : alookup c.animation_chains k = some next)
    (hnd : (c.animations.map (fun a => a.id)).Nodup) :
    ∀ B ∈ (chain_step c k).animations, B.id = next → B.pending = false := by
  unfold chain_step
  rw [hc]
  dsimp only
  exact update_first_anim_pending_all c.animations next hnd

theorem foldl_chain_step_pending_preserve (L : List Nat) :
    ∀ (c : TuiContext) (k : Nat),
      (∀ B ∈ c.animations, B.id = k → B.pending = false) →
      ∀ B ∈ ((L.foldl chain_step c).animations), B.id = k →
        B.pending = false := by
  induction L with
  | nil => intro c k h; exact h
  | cons i L ih =>
    intro c k h
    rw [List.foldl_cons]
    exact ih _ k (chain_step_pending_preserve c i k h)

theorem foldl_chain_step_wake (L : List Nat) :
    ∀ (c : TuiContext) (k next : Nat), k ∈ L →
      alookup c.animation_chains k = some next →
      (c.animations.map (fun a => a.id)).Nodup →
      ∀ B ∈ ((L.foldl chain_step c).animations), B.id = next →
        B.pending = false := by
  induction L with
  | nil => intro c k next hk; exact absurd hk (List.not_mem_nil k)
  | cons i L ih =>
    intro c k next hk hc hnd
    rw [List.foldl_cons]
    by_cases hik : k = i
    · rw [← hik]
      exact foldl_chain_step_pending_preserve L _ next
        (chain_step_establish c k next hc hnd)
    · exact ih _ k next ((List.mem_cons.mp hk).resolve_left hik)
        (by rw [chain_step_chains_lookup_ne c i k hik]; exact hc)
        (by rw [chain_step_map_id]; exact hnd)

theorem rac_members_prune (c : TuiContext) (k : Nat) :
    ∀ p ∈ (remove_animation_from_choreography c k).choreo_groups,
      ∀ m ∈ p.2.members, m.anim_id ≠ k := by
  intro p hp m hm
  rw [remove_animation_from_choreography] at hp
  dsimp only at hp
  obtain ⟨hp1, _⟩ := List.mem_filter.mp hp
  obtain ⟨q, _, rfl⟩ := List.mem_map.mp hp1
  dsimp only at hm
  have := (List.mem_filter.mp hm).2
  simpa using this

theorem rac_members_sub (c : TuiContext) (k : Nat) :
    ∀ p ∈ (remove_animation_from_choreography c k).choreo_groups,
      ∃ q ∈ c.choreo_groups, ∀ m ∈ p.2.members, m ∈ q.2.members := by
  intro p hp
  rw [remove_animation_from_choreography] at hp
  dsimp only at hp
  obtain ⟨hp1, _⟩ := List.mem_filter.mp hp
  obtain ⟨q, hq, rfl⟩ := List.mem_map.mp hp1
  exact ⟨q, hq, fun m hm => (List.mem_filter.mp hm).1⟩

theorem rac_prune_preserve (c : TuiContext) (j k : Nat)
    (h : ∀ p ∈ c.choreo_groups, ∀ m ∈ p.2.members, m.anim_id ≠ k) :
    ∀ p ∈ (remove_animation_from_choreography c j).choreo_groups,
      ∀ m ∈ p.2.members, m.anim_id ≠ k := by
  intro p hp m hm
  obtain ⟨q, hq, hsub⟩ := rac_members_sub c j p hp
  exact h q hq m (hsub m hm)

theorem foldl_rac_prune_preserve (L : List Nat) :
    ∀ (c : TuiContext) (k : Nat),
      (∀ p ∈ c.choreo_groups, ∀ m ∈ p.2.members, m.anim_id ≠ k) →
      ∀ p ∈ ((L.foldl remove_animation_from_choreography c).choreo_groups),
        ∀ m ∈ p.2.members, m.anim_id ≠ k := by
  induction L with
  | nil => intro c k h; exact h
  | cons j L ih =>
    intro c k h
    rw [List.foldl_cons]
    exact ih _ k (rac_prune_preserve c j k h)

theorem foldl_rac_prune (L : List Nat) :
    ∀ (c : TuiContext) (k : Nat), k ∈ L →
      ∀ p ∈ ((L.foldl remove_animation_from_choreography c).choreo_groups),
        ∀ m ∈ p.2.members, m.anim_id ≠ k := by
  induction L with
  | nil => intro c k hk; exact absurd hk (List.not_mem_nil k)
  | cons j L ih =>
    intro c k hk
    rw [List.foldl_cons]
    by_cases hjk : k = j
    · rw [← hjk]
      exact foldl_rac_prune_preserve L _ k (hjk ▸ rac_members_prune c k)
    · exact ih _ k ((List.mem_cons.mp hk).resolve_left hjk)

theorem rac_chains (c : TuiContext) (k : Nat) :
    (remove_animation_from_choreography c k).animation_chains =
      c.animation_chains := rfl

theorem foldl_rac_chains (L : List Nat) :
    ∀ c : TuiContext,
      (L.foldl remove_animation_from_choreography c).animation_chains =
        c.animation_chains := by
  induction L with
  | nil => intro c; rfl
  | cons j L ih =>
    intro c
    rw [List.foldl_cons]
    exact (ih _).trans rfl

theorem foldl_apply_update_fields (U : List (Nat × AnimProp × ℚ)) :
    ∀ c : TuiContext,
      (U.foldl apply_update c).animations = c.animations ∧
      (U.foldl apply_update c).animation_chains = c.animation_chains ∧
      (U.foldl apply_update c).choreo_groups = c.choreo_groups := by
  induction U with
  | nil => intro c; exact ⟨rfl, rfl, rfl⟩
  | cons u U ih =>
    intro c
    rw [List.foldl_cons]
    obtain ⟨h1, h2, h3⟩ := ih (apply_update c u)
    obtain ⟨g1, g2, g3⟩ := apply_update_fields c u
    exact ⟨h1.trans g1, h2.trans g2, h3.trans g3⟩

theorem foldl_apply_content_fields (U : List (Nat × List Char)) :
    ∀ c : TuiContext,
      (U.foldl apply_content_update c).animations = c.animations ∧
      (U.foldl apply_content_update c).animation_chains =
        c.animation_chains ∧
      (U.foldl apply_content_update c).choreo_groups = c.choreo_groups := by
  induction U with
  | nil => intro c; exact ⟨rfl, rfl, rfl⟩
  | cons u U ih =>
    intro c
    rw [List.foldl_cons]
    obtain ⟨h1, h2, h3⟩ := ih (apply_content_update c u)
    obtain ⟨g1, g2, g3⟩ := apply_content_update_fields c u
    exact ⟨h1.trans g1, h2.trans g2, h3.trans g3⟩

theorem foldl_chain_step_nodes (L : List Nat) :
    ∀ c : TuiContext, (L.foldl chain_step c).nodes = c.nodes := by
  induction L with
  | nil => intro c; rfl
  | cons i L ih =>
    intro c
    rw [List.foldl_cons]
    exact (ih _).trans (chain_step_nodes c i)

theorem foldl_chain_step_map_id (L : List Nat) :
    ∀ c : TuiContext,
      (L.foldl chain_step c).animations.map (fun a => a.id) =
        c.animations.map (fun a => a.id) := by
  induction L with
  | nil => intro c; rfl
  | cons i L ih =>
    intro c
    rw [List.foldl_cons]
    exact (ih _).trans (chain_step_map_id c i)

/-- Shape of `advance_animations` on a positive slice with a non-empty
post-choreography registry: the full tick pipeline. -/
theorem advance_animations_eq (elastic : ℚ → ℚ) (ctx : TuiContext) (e : ℚ)
    (hpos : 0 < e)
    (hne : (advance_choreography ctx e).1.animations.isEmpty = false) :
    advance_animations elastic ctx e =
      (let c1 := (advance_choreography ctx e).1
       let act := (advance_choreography ctx e).2
       let steps := c1.animations.map (tick_animation elastic act e)
       let updates := steps.filterMap (fun s => s.update)
       let content_updates := steps.filterMap (fun s => s.content)
       let dirty_nodes := steps.filterMap (fun s => s.dirty)
       let completed_ids := steps.filterMap (fun s => s.completed)
       let ctx2 := { c1 with animations := steps.map (fun s => s.anim) }
       let ctx3 := updates.foldl apply_update ctx2
       let ctx4 := content_updates.foldl apply_content_update ctx3
       let ctx5 := dirty_nodes.foldl mark_dirty ctx4
       let ctx6 := completed_ids.foldl chain_step ctx5
       let ctx7 := { ctx6 with
         animations :=
           ctx6.animations.filter (fun a => ¬ completed_ids.contains a.id) }
       completed_ids.foldl remove_animation_from_choreography ctx7) := by
  rw [advance_animations, if_neg (not_le.mpr hpos)]
  dsimp only
  rw [hne, if_neg Bool.false_ne_true]

/-- Claim C4: a non-pending, non-looping, non-spinner animation `A` whose
elapsed time plus the tick slice reaches its duration is completed by
`advance_animations`: the exact end bits are written to the target node's
property (opacity clamped by `write_property`), `A` leaves the registry
and every choreography group, its chain entry is dropped and the chained
successor's `pending` flag is cleared.  Side hypotheses pin down the
source's concurrency assumptions: ids are distinct, no other live
non-spinner animation targets the same `(node, property)`, and `A` is not
awaiting a choreography start. -/
theorem advance_animations_one_shot_completion
    (elastic : ℚ → ℚ) (ctx : TuiContext) (e : ℚ) (A : Animation)
    (node : TuiNode)
    (hmem : A ∈ ctx.animations)
    (hpend : A.pending = false) (hloop : A.looping = false)
    (hspin : A.spinner = none) (hpos : 0 < e)
    (hnd : (ctx.animations.map (fun a => a.id)).Nodup)
    (huniq : ∀ B ∈ ctx.animations, B.id ≠ A.id →
      ¬(B.target = A.target ∧ B.property = A.property ∧ B.spinner = none))
    (hgrp : ∀ p ∈ ctx.choreo_groups, ∀ m ∈ p.2.members,
      m.anim_id = A.id → m.started = true)
    (hdone : (A.duration_ms : ℚ) ≤ A.elapsed_ms + e)
    (hnode : alookup ctx.nodes A.target = some node) :
    ∀ ctx', ctx' = advance_animations elastic ctx e →
      (∀ B ∈ ctx'.animations, B.id ≠ A.id) ∧
      (∀ p ∈ ctx'.choreo_groups, ∀ m ∈ p.2.members, m.anim_id ≠ A.id) ∧
      alookup ctx'.animation_chains A.id = none ∧
      (∀ next_id, alookup ctx.animation_chains A.id = some next_id →
        ∀ B ∈ ctx'.animations, B.id = next_id → B.pending = false) ∧
      (∃ n', alookup ctx'.nodes A.target = some n' ∧
        read_property n' A.property =
          written_value A.property A.end_bits) ∧
      (ctx.animations = [A] → ctx'.animations = []) := by
  intro ctx' hctx'
  have hpc := advance_choreography_pend_clear ctx e
  have hact : alookup (advance_choreography ctx e).2 A.id = none :=
    advance_choreography_lookup_none ctx e A.id hgrp
  have hA1 : A ∈ (advance_choreography ctx e).1.animations :=
    pend_clear_mem_of_not_pending _ _ hpc A hmem hpend
  have hids : (advance_choreography ctx e).1.animations.map
      (fun a => a.id) = ctx.animations.map (fun a => a.id) :=
    pend_clear_map_id _ _ hpc
  have hnd1 : ((advance_choreography ctx e).1.animations.map
      (fun a => a.id)).Nodup := by rw [hids]; exact hnd
  have hemp : (advance_choreography ctx e).1.animations.isEmpty = false := by
    cases hE : (advance_choreography ctx e).1.animations with
    | nil => rw [hE] at hA1; exact absurd hA1 (List.not_mem_nil A)
    | cons a l => rfl
  rw [advance_animations_eq elastic ctx e hpos hemp] at hctx'
  dsimp only at hctx'
  set c1 := (advance_choreography ctx e).1 with hc1def
  set act := (advance_choreography ctx e).2 with hactdef
  set steps := c1.animations.map (tick_animation elastic act e)
    with hstepsdef
  set updates := steps.filterMap (fun s => s.update) with hupdatesdef
  set content_updates := steps.filterMap (fun s => s.content)
    with hcontentdef
  set dirty_nodes := steps.filterMap (fun s => s.dirty) with hdirtydef
  set completed_ids := steps.filterMap (fun s => s.completed) with hcompdef
  set ctx2 := { c1 with
    animations := steps.map (fun s : TickStep => s.anim) }
    with hctx2def
  set ctx3 := updates.foldl apply_update ctx2 with hctx3def
  set ctx4 := content_updates.foldl apply_content_update ctx3 with hctx4def
  set ctx5 := dirty_nodes.foldl mark_dirty ctx4 with hctx5def
  set ctx6 := completed_ids.foldl chain_step ctx5 with hctx6def
  set ctx7 := { ctx6 with
    animations :=
      ctx6.animations.filter (fun a => ¬ completed_ids.contains a.id) }
    with hctx7def
  have hstepA : tick_animation elastic act e A =
      ⟨{ A with elapsed_ms := A.elapsed_ms + e },
        some (A.target, A.property, A.end_bits), none, some A.target,
        some A.id⟩ :=
    tick_animation_complete elastic act e A hpend hspin hloop hact hdone
  have hsA : tick_animation elastic act e A ∈ steps := by
    rw [hstepsdef]
    exact List.mem_map.mpr ⟨A, hA1, rfl⟩
  have hcomp : A.id ∈ completed_ids := by
    rw [hcompdef]
    exact List.mem_filterMap.mpr ⟨_, hsA, by rw [hstepA]⟩
  have hupdA : (A.target, A.property, A.end_bits) ∈ updates := by
    rw [hupdatesdef]
    exact List.mem_filterMap.mpr ⟨_, hsA, by rw [hstepA]⟩
  have huall : ∀ u ∈ updates, u.1 = A.target → u.2.1 = A.property →
      u.2.2 = A.end_bits := by
    intro u hu h1 h2
    rw [hupdatesdef] at hu
    obtain ⟨s, hs, hsu⟩ := List.mem_filterMap.mp hu
    rw [hstepsdef] at hs
    obtain ⟨B, hB, rfl⟩ := List.mem_map.mp hs
    obtain ⟨ht, hpp, hbp, hbs⟩ :=
      tick_animation_update_shape elastic act e B u hsu
    obtain ⟨B0, hB0, hBB0⟩ := pend_clear_mem_rev _ _ hpc B hB
    have hBt : B.target = B0.target := by
      rcases hBB0 with rfl | rfl <;> rfl
    have hBp : B.property = B0.property := by
      rcases hBB0 with rfl | rfl <;> rfl
    have hBs : B.spinner = B0.spinner := by
      rcases hBB0 with rfl | rfl <;> rfl
    by_cases hid : B0.id = A.id
    · have hB0A : B0 = A := List.inj_on_of_nodup_map hnd hB0 hmem hid
      have hBA : B = A := by
        rcases hBB0 with rfl | rfl
        · exact hB0A
        · rw [hB0A, Animation.pend_eta A hpend]
      rw [hBA, hstepA] at hsu
      injection hsu with h'
      rw [← h']
    · exfalso
      exact huniq B0 hB0 hid
        ⟨hBt.symm.trans (ht.symm.trans h1),
         hBp.symm.trans (hpp.symm.trans h2),
         hBs.symm.trans hbs⟩
  have hanim2 : ctx2.animations = steps.map (fun s : TickStep => s.anim) := by
    rw [hctx2def]
  have hids2 : ctx2.animations.map (fun a => a.id) =
      c1.animations.map (fun a => a.id) := by
    rw [hanim2, hstepsdef, List.map_map, List.map_map]
    exact List.map_congr_left (fun a _ => tick_animation_id elastic act e a)
  refine ⟨?_, ?_, ?_, ?_, ?_, ?_⟩
  · intro B hB
    rw [hctx', (foldl_rac_fields completed_ids ctx7).2.2.2,
      hctx7def] at hB
    dsimp only at hB
    have hBf := List.mem_filter.mp hB
    have hnotin : B.id ∉ completed_ids := by simpa using hBf.2
    intro hc
    rw [hc] at hnotin
    exact hnotin hcomp
  · rw [hctx']
    exact foldl_rac_prune completed_ids ctx7 A.id hcomp
  · rw [hctx', foldl_rac_chains, hctx7def]
    dsimp only
    rw [hctx6def]
    exact foldl_chain_step_mem_none completed_ids ctx5 A.id hcomp
  · intro next_id hch B hB hBid
    have hch5 : alookup ctx5.animation_chains A.id = some next_id := by
      rw [hctx5def, (foldl_mark_dirty_fields dirty_nodes ctx4).2.1,
        hctx4def, (foldl_apply_content_fields content_updates ctx3).2.1,
        hctx3def, (foldl_apply_update_fields updates ctx2).2.1, hctx2def]
      dsimp only
      rw [hc1def, advance_choreography_chains]
      exact hch
    have hnd5 : (ctx5.animations.map (fun a => a.id)).Nodup := by
      rw [hctx5def, (foldl_mark_dirty_fields dirty_nodes ctx4).1,
        hctx4def, (foldl_apply_content_fields content_updates ctx3).1,
        hctx3def, (foldl_apply_update_fields updates ctx2).1, hids2]
      exact hnd1
    have h6 : ∀ B ∈ ctx6.animations, B.id = next_id →
        B.pending = false := by
      rw [hctx6def]
      exact foldl_chain_step_wake completed_ids ctx5 A.id next_id hcomp
        hch5 hnd5
    rw [hctx', (foldl_rac_fields completed_ids ctx7).2.2.2,
      hctx7def] at hB
    dsimp only at hB
    exact h6 B (List.mem_filter.mp hB).1 hBid
  · have hsome2 : (alookup ctx2.nodes A.target).isSome := by
      rw [hctx2def]
      dsimp only
      rw [hc1def, advance_choreography_nodes, hnode]
      rfl
    obtain ⟨n3, hn3, hr3⟩ := foldl_apply_update_write updates ctx2
      A.target A.property A.end_bits hsome2 huall
      ⟨(A.target, A.property, A.end_bits), hupdA, rfl, rfl⟩
    rw [← hctx3def] at hn3
    obtain ⟨n4, hn4, hr4⟩ := foldl_apply_content_read content_updates ctx3
      A.target A.property _ ⟨n3, hn3, hr3⟩
    rw [← hctx4def] at hn4
    obtain ⟨n5, hn5, hr5⟩ := foldl_mark_dirty_read dirty_nodes ctx4
      A.target A.property _ ⟨n4, hn4, hr4⟩
    rw [← hctx5def] at hn5
    refine ⟨n5, ?_, hr5⟩
    rw [hctx', (foldl_rac_fields completed_ids ctx7).1, hctx7def]
    dsimp only
    rw [hctx6def, foldl_chain_step_nodes]
    exact hn5
  · intro hsingle
    have hpc' : pend_clear [A] c1.animations := by
      rw [← hsingle]
      exact hpc
    have hc1s : c1.animations = [A] :=
      pend_clear_singleton A _ hpc' hpend
    have hids6 : ctx6.animations.map (fun a => a.id) = [A.id] := by
      rw [hctx6def, foldl_chain_step_map_id, hctx5def,
        (foldl_mark_dirty_fields dirty_nodes ctx4).1, hctx4def,
        (foldl_apply_content_fields content_updates ctx3).1, hctx3def,
        (foldl_apply_update_fields updates ctx2).1, hids2, hc1s]
      rfl
    rw [hctx', (foldl_rac_fields completed_ids ctx7).2.2.2, hctx7def]
    dsimp only
    rw [List.filter_eq_nil_iff]
    intro a ha
    have haid : a.id ∈ ctx6.animations.map (fun b => b.id) :=
      List.mem_map.mpr ⟨a, ha, rfl⟩
    rw [hids6] at haid
    have haA : a.id = A.id := by simpa using haid
    simp [haA]
    exact hcomp

/-- Scenario S4's animation: opacity 1.0 → 0.0 over 500 ms, linear. -/
def exC4Anim : Animation :=
  { id := 1, target := 1, property := .Opacity, start_bits := 1
    end_bits := 0, duration_ms := 500, elapsed_ms := 0
    easing := .Linear, looping := false, pending := false, spinner := none }

def exC4Ctx : TuiContext :=
  { exBaseCtx with
      nodes := [(1, TuiNode.new .Box)]
      next_handle := 2
      root := some 1
      animations := [exC4Anim]
      next_anim_handle := 2 }

/-- Witness for claim C4's theorem, scenario S4: a container's opacity
animated 1.0 → 0.0 over 500 ms and advanced by 600 ms leaves an empty
animation list and the node's opacity field exactly 0. -/
theorem advance_animations_one_shot_completion_witness :
    exC4Anim ∈ exC4Ctx.animations ∧ (0 : ℚ) < 600 ∧
    (Nat.cast exC4Anim.duration_ms : ℚ) ≤ exC4Anim.elapsed_ms + 600 ∧
    (advance_animations (fun t => t) exC4Ctx 600).animations = [] ∧
    (∃ n', alookup (advance_animations (fun t => t) exC4Ctx 600).nodes 1 =
        some n' ∧
      read_property n' AnimProp.Opacity = written_value AnimProp.Opacity 0) ∧
    written_value AnimProp.Opacity 0 = 0 := by
  have h := advance_animations_one_shot_completion (fun t => t) exC4Ctx 600
    exC4Anim (TuiNode.new .Box)
    (List.mem_singleton.mpr rfl) rfl rfl rfl (by norm_num)
    (by decide)
    (by
      intro B hB hne
      rw [List.mem_singleton.mp hB] at hne
      exact absurd rfl hne)
    (by intro p hp; exact absurd hp (List.not_mem_nil p))
    (by norm_num [exC4Anim])
    rfl
    (advance_animations (fun t => t) exC4Ctx 600) rfl
  exact ⟨List.mem_singleton.mpr rfl, by norm_num, by norm_num [exC4Anim],
    h.2.2.2.2.2 rfl, h.2.2.2.2.1,
    by norm_num [written_value, qclamp]⟩

-- ===========================================================================
-- event.rs / text_utils.rs / layout.rs hit test — input path (claim C10)
-- ===========================================================================

/-- `grapheme_count` (text_utils.rs); under the one-`Char`-per-grapheme
content model this is the length. -/
def grapheme_count (content : List Char) : Nat := content.length

/-- `grapheme_to_byte_idx` (text_utils.rs): byte index of the i-th
grapheme, saturating at the end; under the one-`Char`-per-grapheme model
byte positions coincide with grapheme positions. -/
def grapheme_to_byte_idx (content : List Char) (i : Nat) : Nat :=
  min i content.length

/-- `split_textarea_lines_owned` (text_utils.rs). -/
def split_textarea_lines_owned (content : List Char) : List (List Char) :=
  if content.isEmpty then [[]] else content.splitOn '\n'

/-- `join_textarea_lines` (event.rs): `lines.join("\n")`. -/
def join_textarea_lines (lines : List (List Char)) : List Char :=
  List.intercalate ['\n'] lines

/-- `clamp_textarea_cursor_lines` (text_utils.rs), returning the clamped
`(row, col)` pair. -/
def clamp_textarea_cursor_lines (lines : List (List Char))
    (row col : Nat) : Nat × Nat :=
  let max_row := lines.length - 1
  let row' := if row > max_row then max_row else row
  let line_len := grapheme_count (lines.getD row' [])
  let col' := if col > line_len then line_len else col
  (row', col')

/-- Rust `char::is_control`: the Unicode `Cc` category,
`U+0000..U+001F` and `U+007F..U+009F`. -/
def char_is_control (c : Char) : Bool :=
  c.toNat < 0x20 ∨ (0x7f ≤ c.toNat ∧ c.toNat ≤ 0x9f)

/-- `String::replace_range(start..end, "")` on the content model. -/
def replace_range_empty (content : List Char) (start endi : Nat) :
    List Char :=
  content.take start ++ content.drop endi

/-- `handle_input_key` (event.rs): widget-level key handling on a focused
`Input`; returns the updated context and the consumed flag.  The initial
cursor clamp persists on every path that found the node, as in the
source's in-place mutation. -/
def handle_input_key (ctx : TuiContext) (handle : Nat) (code : Nat)
    (character : Char) : TuiContext × Bool :=
  match alookup ctx.nodes handle with
  | none => (ctx, false)
  | some node0 =>
    let content_len := grapheme_count node0.content
    let node :=
      if node0.cursor_position > content_len then
        { node0 with cursor_position := content_len }
      else node0
    if code = key.ENTER then
      ({ ctx with
          nodes := aupdate ctx.nodes handle (fun _ => node)
          event_buffer := ctx.event_buffer ++ [TuiEvent.submit handle] },
       true)
    else if code = key.BACKSPACE then
      let cursor := node.cursor_position
      if cursor > 0 then
        let start := grapheme_to_byte_idx node.content (cursor - 1)
        let endi := grapheme_to_byte_idx node.content cursor
        ({ ctx with
            nodes := aupdate ctx.nodes handle (fun _ =>
              { node with
                  content := replace_range_empty node.content start endi
                  cursor_position := cursor - 1
                  dirty := true })
            event_buffer := ctx.event_buffer ++ [TuiEvent.change handle 0] },
         true)
      else
        ({ ctx with nodes := aupdate ctx.nodes handle (fun _ => node) },
         true)
    else if code = key.DELETE then
      let cursor := node.cursor_position
      let len := grapheme_count node.content
      if cursor < len then
        let start := grapheme_to_byte_idx node.content cursor
        let endi := grapheme_to_byte_idx node.content (cursor + 1)
        ({ ctx with
            nodes := aupdate ctx.nodes handle (fun _ =>
              { node with
                  content := replace_range_empty node.content start endi
                  dirty := true })
            event_buffer := ctx.event_buffer ++ [TuiEvent.change handle 0] },
         true)
      else
        ({ ctx with nodes := aupdate ctx.nodes handle (fun _ => node) },
         true)
    else if code = key.LEFT then
      let node' :=
        if node.cursor_position > 0 then
          { node with cursor_position := node.cursor_position - 1
                      dirty := true }
        else node
      ({ ctx with nodes := aupdate ctx.nodes handle (fun _ => node') },
       true)
    else if code = key.RIGHT then
      let len := grapheme_count node.content
      let node' :=
        if node.cursor_position < len then
          { node with cursor_position := node.cursor_position + 1
                      dirty := true }
        else node
      ({ ctx with nodes := aupdate ctx.nodes handle (fun _ => node') },
       true)
    else if code = key.HOME then
      ({ ctx with
          nodes := aupdate ctx.nodes handle (fun _ =>
            { node with cursor_position := 0, dirty := true }) },
       true)
    else if code = key.END then
      ({ ctx with
          nodes := aupdate ctx.nodes handle (fun _ =>
            { node with cursor_position := grapheme_count node.content
                        dirty := true }) },
       true)
    else if character ≠ Char.ofNat 0 ∧ ¬ char_is_control character then
      let max_len := node.max_length
      let current_len := grapheme_count node.content
      if max_len = 0 ∨ current_len < max_len then
        let cursor := node.cursor_position
        let byte_idx := grapheme_to_byte_idx node.content cursor
        ({ ctx with
            nodes := aupdate ctx.nodes handle (fun _ =>
              { node with
                  content := node.content.take byte_idx ++ [character] ++
                    node.content.drop byte_idx
                  cursor_position := cursor + 1
                  dirty := true })
            event_buffer := ctx.event_buffer ++ [TuiEvent.change handle 0] },
         true)
      else
        ({ ctx with nodes := aupdate ctx.nodes handle (fun _ => node) },
         false)
    else
      ({ ctx with nodes := aupdate ctx.nodes handle (fun _ => node) },
       false)

/-- `handle_select_key` (event.rs): with an empty options list nothing is
consumed and nothing changes; otherwise Up/Down move the selection within
bounds (emitting Change) and Enter emits Submit. -/
def handle_select_key (ctx : TuiContext) (handle : Nat) (code : Nat) :
    TuiContext × Bool :=
  match alookup ctx.nodes handle with
  | none => (ctx, false)
  | some node =>
    let option_count := node.options.length
    if option_count = 0 then (ctx, false)
    else if code = key.UP then
      let current := node.selected_index.getD 0
      if current > 0 then
        ({ ctx with
            nodes := aupdate ctx.nodes handle (fun _ =>
              { node with selected_index := some (current - 1)
                          dirty := true })
            event_buffer := ctx.event_buffer ++
              [TuiEvent.change handle (current - 1)] },
         true)
      else (ctx, true)
    else if code = key.DOWN then
      let current := node.selected_index.getD 0
      if current + 1 < option_count then
        ({ ctx with
            nodes := aupdate ctx.nodes handle (fun _ =>
              { node with selected_index := some (current + 1)
                          dirty := true })
            event_buffer := ctx.event_buffer ++
              [TuiEvent.change handle (current + 1)] },
         true)
      else (ctx, true)
    else if code = key.ENTER then
      ({ ctx with
          event_buffer := ctx.event_buffer ++ [TuiEvent.submit handle] },
       true)
    else (ctx, false)

/-- The `match code` body of `handle_textarea_key` (event.rs): from the
split lines and the clamped cursor, the updated lines, cursor and the
`emit_change` / `consumed` flags. -/
def textarea_key_edit (code : Nat) (character : Char)
    (lines : List (List Char)) (row col : Nat) :
    List (List Char) × Nat × Nat × Bool × Bool :=
  let after_match :
      List (List Char) × Nat × Nat × Bool × Bool :=
    if code = key.ENTER then
      let line := lines.getD row []
      let split_at := grapheme_to_byte_idx line col
      let before := line.take split_at
      let after := line.drop split_at
      ((lines.set row before).insertIdx (row + 1) after,
        row + 1, 0, true, true)
    else if code = key.BACKSPACE then
      if col > 0 then
        let line := lines.getD row []
        let start := grapheme_to_byte_idx line (col - 1)
        let endi := grapheme_to_byte_idx line col
        (lines.set row (replace_range_empty line start endi),
          row, col - 1, true, true)
      else if row > 0 then
        let current_line := lines.getD row []
        let lines1 := lines.eraseIdx row
        let prev_row := row - 1
        let prev_len := grapheme_count (lines1.getD prev_row [])
        (lines1.set prev_row ((lines1.getD prev_row []) ++ current_line),
          row - 1, prev_len, true, true)
      else (lines, row, col, false, true)
    else if code = key.DELETE then
      let line := lines.getD row []
      let line_len := grapheme_count line
      if col < line_len then
        let start := grapheme_to_byte_idx line col
        let endi := grapheme_to_byte_idx line (col + 1)
        (lines.set row (replace_range_empty line start endi),
          row, col, true, true)
      else if row + 1 < lines.length then
        let next_line := lines.getD (row + 1) []
        ((lines.eraseIdx (row + 1)).set row (line ++ next_line),
          row, col, true, true)
      else (lines, row, col, false, true)
    else if code = key.LEFT then
      if col > 0 then (lines, row, col - 1, false, true)
      else if row > 0 then
        (lines, row - 1, grapheme_count (lines.getD (row - 1) []),
          false, true)
      else (lines, row, col, false, true)
    else if code = key.RIGHT then
      let line_len := grapheme_count (lines.getD row [])
      if col < line_len then (lines, row, col + 1, false, true)
      else if row + 1 < lines.length then (lines, row + 1, 0, false, true)
      else (lines, row, col, false, true)
    else if code = key.UP then
      if row > 0 then
        let rc := clamp_textarea_cursor_lines lines (row - 1) col
        (lines, rc.1, rc.2, false, true)
      else (lines, row, col, false, true)
    else if code = key.DOWN then
      if row + 1 < lines.length then
        let rc := clamp_textarea_cursor_lines lines (row + 1) col
        (lines, rc.1, rc.2, false, true)
      else (lines, row, col, false, true)
    else if code = key.HOME then (lines, row, 0, false, true)
    else if code = key.END then
      (lines, row, grapheme_count (lines.getD row []), false, true)
    else (lines, row, col, false, false)
  let (lines1, row1, col1, emit1, consumed1) := after_match
  if ¬ consumed1 ∧ character ≠ Char.ofNat 0 ∧
      ¬ char_is_control character then
    let line := lines1.getD row1 []
    let idx := grapheme_to_byte_idx line col1
    (lines1.set row1 (line.take idx ++ [character] ++ line.drop idx),
      row1, col1 + 1, true, true)
  else
    (lines1, row1, col1, emit1, consumed1)

/-- `handle_textarea_key` (event.rs). -/
def handle_textarea_key (ctx : TuiContext) (handle : Nat) (code : Nat)
    (character : Char) : TuiContext × Bool :=
  match alookup ctx.nodes handle with
  | none => (ctx, false)
  | some node =>
    let lines := split_textarea_lines_owned node.content
    let rc0 := clamp_textarea_cursor_lines lines node.cursor_row
      node.cursor_col
    let res := textarea_key_edit code character lines rc0.1 rc0.2
    let lines' := res.1
    let emit_change := res.2.2.2.1
    let consumed := res.2.2.2.2
    let content' := if emit_change then join_textarea_lines lines'
      else node.content
    let rc1 := clamp_textarea_cursor_lines lines' res.2.1 res.2.2.1
    let view_row :=
      if node.textarea_view_row > rc1.1 then rc1.1
      else node.textarea_view_row
    let view_col :=
      if node.wrap_mode ≠ 0 then 0
      else if node.textarea_view_col > rc1.2 then rc1.2
      else node.textarea_view_col
    let node' := { node with
      content := content'
      cursor_row := rc1.1
      cursor_col := rc1.2
      textarea_view_row := view_row
      textarea_view_col := view_col
      dirty := if consumed then true else node.dirty }
    let buf :=
      if emit_change then ctx.event_buffer ++ [TuiEvent.change handle 0]
      else ctx.event_buffer
    ({ ctx with
        nodes := aupdate ctx.nodes handle (fun _ => node')
        event_buffer := buf },
     consumed)

/-- `hit_test_recursive` (layout.rs), fuelled on tree depth: reject
invisible or missing nodes and out-of-bounds points, then prefer the
topmost (last, scanning in reverse) hitting child. -/
def hit_test_fuel (ctx : TuiContext) :
    Nat → Nat → ℚ → ℚ → ℚ → ℚ → Option Nat
  | 0, _, _, _, _, _ => none
  | fuel + 1, handle, x, y, offset_x, offset_y =>
    match alookup ctx.nodes handle with
    | none => none
    | some node =>
      if ¬ node.visible then none
      else
        match alookup ctx.layouts handle with
        | none => none
        | some layout =>
          let abs_x := offset_x + layout.x
          let abs_y := offset_y + layout.y
          if x < abs_x ∨ y < abs_y ∨ x ≥ abs_x + layout.width ∨
              y ≥ abs_y + layout.height then none
          else
            match node.children.reverse.findSome?
              (fun ch => hit_test_fuel ctx fuel ch x y abs_x abs_y) with
            | some hit => some hit
            | none => some handle

/-- `hit_test` (layout.rs). -/
def hit_test (ctx : TuiContext) (x y : Nat) : Option Nat :=
  match ctx.root with
  | none => none
  | some root =>
    hit_test_fuel ctx (ctx.nodes.length + 1) root (x : ℚ) (y : ℚ) 0 0

/-- `find_scrollable_ancestor` (event.rs), fuelled on tree depth. -/
def find_scrollable_ancestor_fuel (ctx : TuiContext) :
    Nat → Nat → Option Nat
  | 0, _ => none
  | fuel + 1, current =>
    match alookup ctx.nodes current with
    | none => none
    | some node =>
      if node.node_type = .ScrollBox then some current
      else
        match node.parent with
        | some parent => find_scrollable_ancestor_fuel ctx fuel parent
        | none => none

def find_scrollable_ancestor (ctx : TuiContext) (handle : Nat) :
    Option Nat :=
  find_scrollable_ancestor_fuel ctx (ctx.nodes.length + 1) handle

/-- One raw backend event folded through `read_input`'s loop (event.rs):
the updated context and captured-event count. -/
def read_input_step (acc : TuiContext × Nat) (raw : TerminalInputEvent) :
    TuiContext × Nat :=
  let ctx := acc.1
  let count := acc.2
  match raw with
  | .Key code modifiers character =>
    if code = key.TAB then (focus_next ctx, count)
    else if code = key.BACK_TAB then (focus_prev ctx, count)
    else
      let target := ctx.focused.getD 0
      let widget :
          Option (TuiContext × Bool) :=
        match ctx.focused with
        | some focused_handle =>
          match (alookup ctx.nodes focused_handle).map
            (fun n => n.node_type) with
          | some NodeType.Input =>
            some (handle_input_key ctx focused_handle code character)
          | some NodeType.TextArea =>
            some (handle_textarea_key ctx focused_handle code character)
          | some NodeType.Select =>
            some (handle_select_key ctx focused_handle code)
          | _ => none
        | none => none
      let codepoint :=
        if character ≠ Char.ofNat 0 then character.toNat else 0
      match widget with
      | some (ctx1, true) => (ctx1, count + 1)
      | some (ctx1, false) =>
        ({ ctx1 with
            event_buffer := ctx1.event_buffer ++
              [TuiEvent.key target code modifiers codepoint] },
         count + 1)
      | none =>
        ({ ctx with
            event_buffer := ctx.event_buffer ++
              [TuiEvent.key target code modifiers codepoint] },
         count + 1)
  | .Mouse x y button modifiers =>
    let target := (hit_test ctx x y).getD 0
    let ctx1 :=
      if button ≤ 2 ∧ target ≠ 0 then
        match alookup ctx.nodes target with
        | some node =>
          if node.focusable then
            let old_focus := ctx.focused.getD 0
            if old_focus ≠ target then
              { ctx with
                  focused := some target
                  event_buffer := ctx.event_buffer ++
                    [TuiEvent.focus_change old_focus target] }
            else ctx
          else ctx
        | none => ctx
      else ctx
    let ctx2 :=
      if button = 3 ∨ button = 4 then
        match find_scrollable_ancestor ctx1 target with
        | some scroll_target =>
          scroll_by ctx1 scroll_target 0 (if button = 3 then -1 else 1)
        | none => ctx1
      else ctx1
    ({ ctx2 with
        event_buffer := ctx2.event_buffer ++
          [TuiEvent.mouse target x y button modifiers] },
     count + 1)
  | .Resize width height =>
    ({ ctx with
        event_buffer := ctx.event_buffer ++
          [TuiEvent.resize width height] },
     count + 1)
  | .FocusGained => (ctx, count)
  | .FocusLost => (ctx, count)

/-- `read_input` (event.rs), over the batch of raw events the terminal
backend collaborator returned; yields the context and `Ok(count)`'s
payload. -/
def read_input (ctx : TuiContext)
    (raw_events : List TerminalInputEvent) : TuiContext × Nat :=
  raw_events.foldl read_input_step (ctx, 0)

/-- Claim C10: with focus on a Select whose options list is empty, the
Select handler consumes nothing and changes nothing (no Change, no Submit,
selection untouched) for Up, Down and Enter, and `read_input` instead
appends one generic Key event targeting the focused Select handle. -/
theorem select_empty_options_passthrough (ctx : TuiContext) (h : Nat)
    (node : TuiNode) (code modifiers : Nat) (character : Char)
    (hfoc : ctx.focused = some h)
    (hnode : alookup ctx.nodes h = some node)
    (htype : node.node_type = NodeType.Select)
    (hopts : node.options = [])
    (hcode : code = key.UP ∨ code = key.DOWN ∨ code = key.ENTER) :
    handle_select_key ctx h code = (ctx, false) ∧
    read_input ctx [TerminalInputEvent.Key code modifiers character] =
      ({ ctx with
          event_buffer := ctx.event_buffer ++
            [TuiEvent.key h code modifiers
              (if character ≠ Char.ofNat 0 then character.toNat else 0)] },
       1) := by
  have hsel : handle_select_key ctx h code = (ctx, false) := by
    rw [handle_select_key, hnode]
    dsimp only
    rw [hopts]
    rfl
  have hTAB : code ≠ key.TAB := by
    rcases hcode with rfl | rfl | rfl <;> decide
  have hBT : code ≠ key.BACK_TAB := by
    rcases hcode with rfl | rfl | rfl <;> decide
  refine ⟨hsel, ?_⟩
  rw [read_input, List.foldl_cons, List.foldl_nil, read_input_step]
  dsimp only
  rw [if_neg hTAB, if_neg hBT]
  rw [hfoc]
  dsimp only [Option.getD_some]
  rw [hnode]
  dsimp only [Option.map_some']
  rw [htype]
  dsimp only
  rw [hsel]
  dsimp only
  rw [hfoc]

def exSelCtx : TuiContext :=
  { exBaseCtx with
      nodes := [(1, TuiNode.new .Select)]
      next_handle := 2
      root := some 1
      focused := some 1 }

/-- Witness for claim C10's theorem: a focused Select (handle 1) with no
options passes an Up key through as a generic Key event. -/
theorem select_empty_options_passthrough_witness :
    exSelCtx.focused = some 1 ∧
    alookup exSelCtx.nodes 1 = some (TuiNode.new .Select) ∧
    (TuiNode.new .Select).node_type = NodeType.Select ∧
    (TuiNode.new .Select).options = [] ∧
    (key.UP = key.UP ∨ key.UP = key.DOWN ∨ key.UP = key.ENTER) ∧
    (handle_select_key exSelCtx 1 key.UP = (exSelCtx, false) ∧
     read_input exSelCtx
        [TerminalInputEvent.Key key.UP 0 (Char.ofNat 0)] =
      ({ exSelCtx with
          event_buffer := exSelCtx.event_buffer ++
            [TuiEvent.key 1 key.UP 0
              (if (Char.ofNat 0) ≠ Char.ofNat 0 then
                (Char.ofNat 0).toNat else 0)] },
       1)) :=
  ⟨rfl, rfl, rfl, rfl, Or.inl rfl,
    select_empty_options_passthrough exSelCtx 1 (TuiNode.new .Select)
      key.UP 0 (Char.ofNat 0) rfl rfl rfl rfl (Or.inl rfl)⟩
